import Mathlib

/-!
Shallow embedding of the `inversion-api-spec` crate (src/src/lib.rs).

The crate defines a document model (`IApiSpecDoc` → `IApiSpec` with
`Feature`, `UnstableFeature`, `Type`, `StructContent`, `Call`) whose JSON
codec is produced by serde derive with `rename_all = "camelCase"`,
`tag = "type"` on the `Type` union, and `skip_serializing_if = "Option::is_none"`
on every optional field; map fields use `indexmap::IndexMap` (insertion
ordered).  `IApiSpecDoc::parse` runs `serde_json::from_slice` and wraps any
parse error in `std::io::Error::new(std::io::ErrorKind::Other, e)`.

The embedding models:
* JSON documents as an ordered tree (`Json`), objects as ordered key/value
  lists (serde_json's streaming deserializer hands fields to the visitors in
  document order; `IndexMap` keeps insertion order);
* the serde-derived encoder (`encode*`) and decoder (`decode*`), the latter
  fuel-indexed where it recurses through the `Type` union (the fuel is
  instantiated with a provably sufficient structural bound);
* the serde_json text parser (`parseValueF` …) down to its error codes,
  including the 128-deep recursion guard, and `IApiSpecDoc.parse` itself.

Rust `u32` fields are modelled as `Nat` together with the well-formedness
bound `< 2^32` (`WF*` below), which is exactly what the Rust types
guarantee by construction.
-/

/-! ## JSON documents -/

/-- A JSON value; objects and arrays keep document order.  Numbers written
without fraction or exponent are integers (`num`); numbers with a fraction
or exponent part (which serde_json would read as `f64`, a shape no field of
this crate's model accepts) are kept as their raw text (`fnum`). -/
inductive Json where
  | null
  | bool (b : Bool)
  | num (n : Int)
  | fnum (raw : String)
  | str (s : String)
  | arr (items : List Json)
  | obj (fields : List (String × Json))

/-- Key list of a JSON object (empty for non-objects). -/
def objKeysOf : Json → List String
  | .obj fields => fields.map Prod.fst
  | _ => []

mutual
/-- Structural nesting depth of a JSON value (used as decoder fuel). -/
def jdepthV : Json → Nat
  | .arr l => jdepthL l + 1
  | .obj l => jdepthO l + 1
  | _ => 1
def jdepthL : List Json → Nat
  | [] => 0
  | j :: rest => max (jdepthV j) (jdepthL rest)
def jdepthO : List (String × Json) → Nat
  | [] => 0
  | kv :: rest => max (jdepthV kv.2) (jdepthO rest)
end

/-! ## serde rename rules (serde_derive `RenameRule::CamelCase`) -/

/-- Split a list of characters at underscores. -/
def splitUnderscore : List Char → List (List Char)
  | [] => [[]]
  | c :: rest =>
    match splitUnderscore rest with
    | [] => if c = '_' then [[], []] else [[c]]
    | seg :: segs => if c = '_' then [] :: seg :: segs else (c :: seg) :: segs

/-- Upper-case the first character of a word. -/
def capitalizeWord : List Char → List Char
  | [] => []
  | c :: rest => c.toUpper :: rest

/-- Lower-case the first character. -/
def lowerFirst (s : String) : String :=
  match s.toList with
  | [] => ""
  | c :: rest => String.mk (c.toLower :: rest)

/-- serde's `camelCase` rename applied to a (snake_case) field name:
PascalCase each `_`-separated word, concatenate, lower the first letter. -/
def camelOfSnake (s : String) : String :=
  lowerFirst (String.mk (((splitUnderscore s.toList).map capitalizeWord).flatten))

/-- serde's `camelCase` rename applied to a (PascalCase) variant name:
lower the first letter. -/
def camelOfPascal (s : String) : String := lowerFirst s

/-! ## The document model (src/src/lib.rs) -/

/-- Newtype for a nanoid string (`pub struct NanoId(pub String)`).
Default random generation is out of scope of the codec. -/
structure NanoId where
  val : String

/-- Stable feature definition. -/
structure Feature where
  doc : Option String
  stablized_revision : Nat
  deprecated : Option Bool

/-- Unstable feature definition. -/
structure UnstableFeature where
  doc : Option String

/-- Call data definition. -/
structure Call where
  doc : Option String
  feature : String
  input : String
  output : String

/-- Alias for `String`, needed inside the `Ty` declaration where the
`Ty.String` constructor shadows the builtin name. -/
abbrev Str : Type := String

mutual
/-- Rust `enum Type`: the structured types allowed by inversion api
(`Type` is a reserved name in Lean, hence `Ty`).  `IndexMap<String,
StructContent>` is modelled as an ordered association list, `Vec` as a
list, `Box` disappears. -/
inductive Ty where
  | Null (doc : Option Str)
  | Bool (doc : Option Str)
  | I32 (doc : Option Str)
  | U32 (doc : Option Str)
  | I64 (doc : Option Str)
  | U64 (doc : Option Str)
  | F64 (doc : Option Str)
  | Bytes (doc : Option Str)
  | String (doc : Option Str)
  | Optional (doc : Option Str) (content : Ty)
  | Array (doc : Option Str) (content : Ty)
  | Tuple (doc : Option Str) (content : List StructContent)
  | Struct (doc : Option Str) (content : List (Str × StructContent))
  | Enum (doc : Option Str) (content : List (Str × StructContent))
  | NamedType (doc : Option Str) (content : Str)
/-- Struct data definition: `index: u32`, `content: Box<Type>`. -/
inductive StructContent where
  | mk (index : Nat) (content : Ty)
end

/-- The index of this struct item. -/
def StructContent.index : StructContent → Nat
  | .mk i _ => i

/-- The content type of this struct item. -/
def StructContent.content : StructContent → Ty
  | .mk _ c => c

/-- `Type::doc`: retrieve the doc entry for this type (exhaustive match,
as in the source). -/
def Ty.doc : Ty → Option Str
  | .Null doc => doc
  | .Bool doc => doc
  | .I32 doc => doc
  | .U32 doc => doc
  | .I64 doc => doc
  | .U64 doc => doc
  | .F64 doc => doc
  | .Bytes doc => doc
  | .String doc => doc
  | .Optional doc _ => doc
  | .Array doc _ => doc
  | .Tuple doc _ => doc
  | .Struct doc _ => doc
  | .Enum doc _ => doc
  | .NamedType doc _ => doc

/-- The Rust variant name of a `Type` value. -/
def Ty.variantName : Ty → Str
  | .Null _ => "Null"
  | .Bool _ => "Bool"
  | .I32 _ => "I32"
  | .U32 _ => "U32"
  | .I64 _ => "I64"
  | .U64 _ => "U64"
  | .F64 _ => "F64"
  | .Bytes _ => "Bytes"
  | .String _ => "String"
  | .Optional _ _ => "Optional"
  | .Array _ _ => "Array"
  | .Tuple _ _ => "Tuple"
  | .Struct _ _ => "Struct"
  | .Enum _ _ => "Enum"
  | .NamedType _ _ => "NamedType"

/-- The wire discriminant of a `Type` value (`rename_all = "camelCase"`). -/
def Ty.tagName (t : Ty) : Str := camelOfPascal t.variantName

/-- The actual inversion api spec. -/
structure IApiSpec where
  id : NanoId
  title : String
  revision : Nat
  error_type : String
  unique : Option Bool
  features : List (String × Feature)
  unstable_features : List (String × UnstableFeature)
  types : List (String × Ty)
  calls_out : List (String × Call)
  calls_in : List (String × Call)

/-- Doc wrapper for identifying the document type. -/
structure IApiSpecDoc where
  inversion_api_spec : IApiSpec

/-! ## Encoder (serde derive `Serialize`)

Field order is declaration order; the `type` tag of the internally tagged
`Type` union is emitted first; `skip_serializing_if = "Option::is_none"`
fields are omitted when `None`.  The string keys below are the compile-time
expansion of `rename_all = "camelCase"`; the claim theorems relate them to
`camelOfSnake`/`camelOfPascal` of the declared names. -/

/-- Emit an optional string field, omitted when unset. -/
def encodeOptStr (key : String) : Option String → List (String × Json)
  | none => []
  | some s => [(key, Json.str s)]

/-- Emit an optional bool field, omitted when unset. -/
def encodeOptBool (key : String) : Option Bool → List (String × Json)
  | none => []
  | some b => [(key, Json.bool b)]

/-- `NanoId` is a newtype: it serializes as its inner string. -/
def encodeNanoId (n : NanoId) : Json := Json.str n.val

/-- Serialize a `Feature`. -/
def encodeFeature (f : Feature) : Json :=
  Json.obj (encodeOptStr "doc" f.doc
    ++ [("stablizedRevision", Json.num (Int.ofNat f.stablized_revision))]
    ++ encodeOptBool "deprecated" f.deprecated)

/-- Serialize an `UnstableFeature`. -/
def encodeUnstableFeature (f : UnstableFeature) : Json :=
  Json.obj (encodeOptStr "doc" f.doc)

/-- Serialize a `Call`. -/
def encodeCall (c : Call) : Json :=
  Json.obj (encodeOptStr "doc" c.doc
    ++ [("feature", Json.str c.feature),
        ("input", Json.str c.input),
        ("output", Json.str c.output)])

mutual
/-- Serialize a `Type`: internally tagged (`tag = "type"`), variant fields
flattened beside the tag. -/
def encodeTy : Ty → Json
  | .Null d => Json.obj (("type", Json.str "null") :: encodeOptStr "doc" d)
  | .Bool d => Json.obj (("type", Json.str "bool") :: encodeOptStr "doc" d)
  | .I32 d => Json.obj (("type", Json.str "i32") :: encodeOptStr "doc" d)
  | .U32 d => Json.obj (("type", Json.str "u32") :: encodeOptStr "doc" d)
  | .I64 d => Json.obj (("type", Json.str "i64") :: encodeOptStr "doc" d)
  | .U64 d => Json.obj (("type", Json.str "u64") :: encodeOptStr "doc" d)
  | .F64 d => Json.obj (("type", Json.str "f64") :: encodeOptStr "doc" d)
  | .Bytes d => Json.obj (("type", Json.str "bytes") :: encodeOptStr "doc" d)
  | .String d => Json.obj (("type", Json.str "string") :: encodeOptStr "doc" d)
  | .Optional d c =>
    Json.obj (("type", Json.str "optional") :: encodeOptStr "doc" d
      ++ [("content", encodeTy c)])
  | .Array d c =>
    Json.obj (("type", Json.str "array") :: encodeOptStr "doc" d
      ++ [("content", encodeTy c)])
  | .Tuple d l =>
    Json.obj (("type", Json.str "tuple") :: encodeOptStr "doc" d
      ++ [("content", Json.arr (encodeSCList l))])
  | .Struct d l =>
    Json.obj (("type", Json.str "struct") :: encodeOptStr "doc" d
      ++ [("content", Json.obj (encodeSCMap l))])
  | .Enum d l =>
    Json.obj (("type", Json.str "enum") :: encodeOptStr "doc" d
      ++ [("content", Json.obj (encodeSCMap l))])
  | .NamedType d s =>
    Json.obj (("type", Json.str "namedType") :: encodeOptStr "doc" d
      ++ [("content", Json.str s)])
/-- Serialize a `StructContent` (fields `index`, `content`). -/
def encodeStructContent : StructContent → Json
  | .mk i c => Json.obj [("index", Json.num (Int.ofNat i)), ("content", encodeTy c)]
/-- Serialize a `Vec<StructContent>`. -/
def encodeSCList : List StructContent → List Json
  | [] => []
  | sc :: rest => encodeStructContent sc :: encodeSCList rest
/-- Serialize an `IndexMap<String, StructContent>` in insertion order. -/
def encodeSCMap : List (String × StructContent) → List (String × Json)
  | [] => []
  | kv :: rest => (kv.1, encodeStructContent kv.2) :: encodeSCMap rest
end

/-- Serialize an `IndexMap<String, A>` in insertion order. -/
def encodeIMap {A : Type} (f : A → Json) (m : List (String × A)) : Json :=
  Json.obj (m.map (fun kv => (kv.1, f kv.2)))

/-- Serialize an `IApiSpec` (declaration order; `unique` omitted when
unset). -/
def encodeIApiSpec (s : IApiSpec) : Json :=
  Json.obj ([("id", encodeNanoId s.id),
             ("title", Json.str s.title),
             ("revision", Json.num (Int.ofNat s.revision)),
             ("errorType", Json.str s.error_type)]
    ++ encodeOptBool "unique" s.unique
    ++ [("features", encodeIMap encodeFeature s.features),
        ("unstableFeatures", encodeIMap encodeUnstableFeature s.unstable_features),
        ("types", encodeIMap encodeTy s.types),
        ("callsOut", encodeIMap encodeCall s.calls_out),
        ("callsIn", encodeIMap encodeCall s.calls_in)])

/-- Serialize an `IApiSpecDoc`. -/
def encodeIApiSpecDoc (d : IApiSpecDoc) : Json :=
  Json.obj [("inversionApiSpec", encodeIApiSpec d.inversion_api_spec)]

/-! ## Decode errors

serde_json's `ErrorCode`: structured codes for text-level (syntax/eof)
failures, `message` for all data-binding failures (`missing field`,
`unknown variant`, `invalid type`, `invalid value`, `duplicate field` are
message strings in serde).  Positions (line/column) are omitted.  The
`message "modelling fuel exhausted"` value is an artifact of the fuel-based
embedding and is unreachable for the fuel bounds used by the wrappers. -/
inductive ErrCode where
  | message (msg : String)
  | eofWhileParsingList
  | eofWhileParsingObject
  | eofWhileParsingString
  | eofWhileParsingValue
  | expectedColon
  | expectedListCommaOrEnd
  | expectedObjectCommaOrEnd
  | expectedSomeIdent
  | expectedSomeValue
  | invalidEscape
  | invalidNumber
  | invalidUnicodeCodePoint
  | controlCharacterWhileParsingString
  | keyMustBeAString
  | loneLeadingSurrogateInHexEscape
  | unexpectedEndOfHexEscape
  | trailingComma
  | trailingCharacters
  | recursionLimitExceeded
  deriving Repr, DecidableEq

/-- serde_json's `Category`: `data` for semantic (binding) errors,
`malformed` for syntax errors, `eof` for premature end of input. -/
inductive ErrorCategory where
  | data
  | malformed
  | eof
  deriving Repr, DecidableEq

/-- serde_json `Error::classify`. -/
def ErrCode.classify : ErrCode → ErrorCategory
  | .message _ => .data
  | .eofWhileParsingList => .eof
  | .eofWhileParsingObject => .eof
  | .eofWhileParsingString => .eof
  | .eofWhileParsingValue => .eof
  | _ => .malformed

/-- The subset of `std::io::ErrorKind` relevant here (`parse` always uses
`Other`). -/
inductive IoErrorKind where
  | notFound
  | invalidInput
  | invalidData
  | other
  deriving Repr, DecidableEq

/-- Model of `std::io::Error`: a kind plus the wrapped parse error
(reachable in Rust through `get_ref`/downcast). -/
structure IoError where
  kind : IoErrorKind
  source : ErrCode
  deriving Repr, DecidableEq

/-- serde's `missing field` error message. -/
def missingField (name : String) : ErrCode :=
  .message ("missing field `" ++ name ++ "`")

/-- serde's `duplicate field` error message. -/
def duplicateField (name : String) : ErrCode :=
  .message ("duplicate field `" ++ name ++ "`")

/-- serde's description of an unexpected value, for `invalid type` errors. -/
def Json.unexpDesc : Json → String
  | .null => "null"
  | .bool b => "boolean `" ++ (if b then "true" else "false") ++ "`"
  | .num n => "integer `" ++ toString n ++ "`"
  | .fnum raw => "floating point `" ++ raw ++ "`"
  | .str s => "string \"" ++ s ++ "\""
  | .arr _ => "sequence"
  | .obj _ => "map"

/-- serde's `invalid type` error message. -/
def invalidType (j : Json) (expected : String) : ErrCode :=
  .message ("invalid type: " ++ j.unexpDesc ++ ", expected " ++ expected)

/-! ## Decoder (serde derive `Deserialize`)

The derived deserializer for a struct scans the object's fields, ignores
unknown keys (no `deny_unknown_fields` in the source), errors on a
duplicate occurrence of a known key, and reports a missing required key;
`Option` fields read absent keys and explicit `null` as `None`. -/

/-- Scan for one named field; a second occurrence is a duplicate-field
error, unknown keys are skipped. -/
def findField (name : String) (acc : Option Json) :
    List (String × Json) → Except ErrCode (Option Json)
  | [] => .ok acc
  | (k, v) :: rest =>
    if k = name then
      match acc with
      | some _ => .error (duplicateField name)
      | none => findField name (some v) rest
    else findField name acc rest

/-- Look up a field that may be absent. -/
def getFieldD (name : String) (fields : List (String × Json)) :
    Except ErrCode (Option Json) :=
  findField name none fields

/-- Look up a required field. -/
def reqFieldD (name : String) (fields : List (String × Json)) :
    Except ErrCode Json :=
  match getFieldD name fields with
  | .error e => .error e
  | .ok none => .error (missingField name)
  | .ok (some v) => .ok v

/-- Deserialize a `String`. -/
def decodeString : Json → Except ErrCode String
  | .str s => .ok s
  | j => .error (invalidType j "a string")

/-- Deserialize a `bool`. -/
def decodeBool : Json → Except ErrCode Bool
  | .bool b => .ok b
  | j => .error (invalidType j "a boolean")

/-- Deserialize a `u32`: serde visits non-negative integers as `u64` and
negative ones as `i64`, and the `u32` impl range-checks. -/
def decodeU32 : Json → Except ErrCode Nat
  | .num (.ofNat m) =>
    if m < 4294967296 then .ok m
    else .error (.message ("invalid value: integer `" ++ toString (Int.ofNat m) ++ "`, expected u32"))
  | .num (.negSucc m) =>
    .error (.message ("invalid value: integer `" ++ toString (Int.negSucc m) ++ "`, expected u32"))
  | j => .error (invalidType j "u32")

/-- Deserialize a `NanoId` (newtype over `String`). -/
def decodeNanoId (j : Json) : Except ErrCode NanoId :=
  match decodeString j with
  | .error e => .error e
  | .ok s => .ok ⟨s⟩

/-- Deserialize an `Option<A>`-typed field: absent or explicit `null`
yield `None`. -/
def decodeOptField {A : Type} (dec : Json → Except ErrCode A) (name : String)
    (fields : List (String × Json)) : Except ErrCode (Option A) :=
  match getFieldD name fields with
  | .error e => .error e
  | .ok none => .ok none
  | .ok (some .null) => .ok none
  | .ok (some v) =>
    match dec v with
    | .error e => .error e
    | .ok a => .ok (some a)

/-- Deserialize a `Feature`. -/
def decodeFeature : Json → Except ErrCode Feature
  | .obj fields => do
    let d ← decodeOptField decodeString "doc" fields
    let sr ← reqFieldD "stablizedRevision" fields >>= decodeU32
    let dep ← decodeOptField decodeBool "deprecated" fields
    .ok ⟨d, sr, dep⟩
  | j => .error (invalidType j "struct Feature")

/-- Deserialize an `UnstableFeature`. -/
def decodeUnstableFeature : Json → Except ErrCode UnstableFeature
  | .obj fields => do
    let d ← decodeOptField decodeString "doc" fields
    .ok ⟨d⟩
  | j => .error (invalidType j "struct UnstableFeature")

/-- Deserialize a `Call`. -/
def decodeCall : Json → Except ErrCode Call
  | .obj fields => do
    let d ← decodeOptField decodeString "doc" fields
    let f ← reqFieldD "feature" fields >>= decodeString
    let i ← reqFieldD "input" fields >>= decodeString
    let o ← reqFieldD "output" fields >>= decodeString
    .ok ⟨d, f, i, o⟩
  | j => .error (invalidType j "struct Call")

/-- `IndexMap::insert`: an existing key keeps its slot, its value is
replaced; a fresh key is appended. -/
def imInsert {A : Type} (k : String) (a : A) :
    List (String × A) → List (String × A)
  | [] => [(k, a)]
  | (k', a') :: rest =>
    if k' = k then (k', a) :: rest else (k', a') :: imInsert k a rest

/-- Deserialize the entries of an `IndexMap<String, A>` in document order,
inserting each decoded value. -/
def decodeEntriesWith {A : Type} (dec : Json → Except ErrCode A) :
    List (String × Json) → List (String × A) → Except ErrCode (List (String × A))
  | [], acc => .ok acc
  | (k, v) :: rest, acc =>
    match dec v with
    | .error e => .error e
    | .ok a => decodeEntriesWith dec rest (imInsert k a acc)

/-- Deserialize an `IndexMap<String, A>`. -/
def decodeIMap {A : Type} (dec : Json → Except ErrCode A) :
    Json → Except ErrCode (List (String × A))
  | .obj fields => decodeEntriesWith dec fields []
  | j => .error (invalidType j "a map")

/-- The wire names of the fifteen `Type` variants, in declaration order. -/
def tyVariants : List String :=
  ["null", "bool", "i32", "u32", "i64", "u64", "f64", "bytes", "string",
   "optional", "array", "tuple", "struct", "enum", "namedType"]

/-- Format serde's expected-variants list. -/
def expectedOneOf : List String → String
  | [] => ""
  | [v] => "`" ++ v ++ "`"
  | v :: rest => "`" ++ v ++ "`, " ++ expectedOneOf rest

/-- serde's `unknown variant` error message. -/
def unknownVariantErr (tag : String) : ErrCode :=
  .message ("unknown variant `" ++ tag ++ "`, expected one of "
    ++ expectedOneOf tyVariants)

/-- Extract the `type` tag of an internally tagged enum (missing,
duplicate and non-string tags are errors). -/
def getTag (fields : List (String × Json)) : Except ErrCode String :=
  match getFieldD "type" fields with
  | .error e => .error e
  | .ok none => .error (missingField "type")
  | .ok (some (.str s)) => .ok s
  | .ok (some j) => .error (invalidType j "variant identifier")

/-- Deserialize a `StructContent` given a decoder for the nested `Type`. -/
def decodeSCWith (decTy : Json → Except ErrCode Ty) :
    Json → Except ErrCode StructContent
  | .obj fields => do
    let i ← reqFieldD "index" fields >>= decodeU32
    let c ← reqFieldD "content" fields >>= decTy
    .ok (.mk i c)
  | j => .error (invalidType j "struct StructContent")

/-- Deserialize each element of a JSON array. -/
def decodeListWith {A : Type} (dec : Json → Except ErrCode A) :
    List Json → Except ErrCode (List A)
  | [] => .ok []
  | j :: rest =>
    match dec j with
    | .error e => .error e
    | .ok a =>
      match decodeListWith dec rest with
      | .error e => .error e
      | .ok as => .ok (a :: as)

/-- Deserialize a `Type` (internally tagged enum), fuel-indexed: one unit
of fuel is spent per nested `Type` level, so any fuel at least the
structural depth of the input suffices. -/
def decodeTyF : Nat → Json → Except ErrCode Ty
  | 0, _ => .error (.message "modelling fuel exhausted")
  | fuel+1, j =>
    match j with
    | .obj fields => do
      let tag ← getTag fields
      let d ← decodeOptField decodeString "doc" fields
      match tag with
      | "null" => .ok (.Null d)
      | "bool" => .ok (.Bool d)
      | "i32" => .ok (.I32 d)
      | "u32" => .ok (.U32 d)
      | "i64" => .ok (.I64 d)
      | "u64" => .ok (.U64 d)
      | "f64" => .ok (.F64 d)
      | "bytes" => .ok (.Bytes d)
      | "string" => .ok (.String d)
      | "optional" => do
        let c ← reqFieldD "content" fields >>= (fun cj => decodeTyF fuel cj)
        .ok (.Optional d c)
      | "array" => do
        let c ← reqFieldD "content" fields >>= (fun cj => decodeTyF fuel cj)
        .ok (.Array d c)
      | "tuple" => do
        let cj ← reqFieldD "content" fields
        match cj with
        | .arr items => do
          let l ← decodeListWith (fun sj => decodeSCWith (fun tj => decodeTyF fuel tj) sj) items
          .ok (.Tuple d l)
        | _ => .error (invalidType cj "a sequence")
      | "struct" => do
        let cj ← reqFieldD "content" fields
        match cj with
        | .obj entries => do
          let m ← decodeEntriesWith (fun sj => decodeSCWith (fun tj => decodeTyF fuel tj) sj) entries []
          .ok (.Struct d m)
        | _ => .error (invalidType cj "a map")
      | "enum" => do
        let cj ← reqFieldD "content" fields
        match cj with
        | .obj entries => do
          let m ← decodeEntriesWith (fun sj => decodeSCWith (fun tj => decodeTyF fuel tj) sj) entries []
          .ok (.Enum d m)
        | _ => .error (invalidType cj "a map")
      | "namedType" => do
        let c ← reqFieldD "content" fields >>= decodeString
        .ok (.NamedType d c)
      | other => .error (unknownVariantErr other)
    | _ => .error (invalidType j "internally tagged enum Type")

/-- Deserialize a `Type`, instantiating the fuel with the input's
structural depth (always sufficient: the decoder descends only into
subtrees of the input). -/
def decodeTyTop (j : Json) : Except ErrCode Ty := decodeTyF (jdepthV j) j

/-- Deserialize an `IApiSpec`. -/
def decodeIApiSpec : Json → Except ErrCode IApiSpec
  | .obj fields => do
    let i ← reqFieldD "id" fields >>= decodeNanoId
    let t ← reqFieldD "title" fields >>= decodeString
    let r ← reqFieldD "revision" fields >>= decodeU32
    let et ← reqFieldD "errorType" fields >>= decodeString
    let u ← decodeOptField decodeBool "unique" fields
    let fs ← reqFieldD "features" fields >>= decodeIMap decodeFeature
    let ufs ← reqFieldD "unstableFeatures" fields >>= decodeIMap decodeUnstableFeature
    let tys ← reqFieldD "types" fields >>= decodeIMap decodeTyTop
    let co ← reqFieldD "callsOut" fields >>= decodeIMap decodeCall
    let ci ← reqFieldD "callsIn" fields >>= decodeIMap decodeCall
    .ok ⟨i, t, r, et, u, fs, ufs, tys, co, ci⟩
  | j => .error (invalidType j "struct IApiSpec")

/-- Deserialize an `IApiSpecDoc`. -/
def decodeIApiSpecDoc : Json → Except ErrCode IApiSpecDoc
  | .obj fields => do
    let s ← reqFieldD "inversionApiSpec" fields >>= decodeIApiSpec
    .ok ⟨s⟩
  | j => .error (invalidType j "struct IApiSpecDoc")

/-! ## Text parser (serde_json)

A model of serde_json's reader: whitespace per `is_whitespace`, the usual
value grammar, serde_json's error codes, and the default 128-deep
recursion guard.  The Rust pipeline is streaming (binding interleaved with
reading); the model parses the whole document first and binds second,
which yields the same successes and the same single-cause failures.
Input bytes are modelled as a character list. -/

/-- serde_json whitespace. -/
def isWs (c : Char) : Bool :=
  c = ' ' || c = '\n' || c = '\t' || c = '\r'

/-- Skip leading whitespace. -/
def skipWs : List Char → List Char
  | [] => []
  | c :: rest => if isWs c then skipWs rest else c :: rest

/-- Hex digit value. -/
def hexVal? (c : Char) : Option Nat :=
  if '0' ≤ c ∧ c ≤ '9' then some (c.toNat - 48)
  else if 'a' ≤ c ∧ c ≤ 'f' then some (c.toNat - 87)
  else if 'A' ≤ c ∧ c ≤ 'F' then some (c.toNat - 55)
  else none

/-- Parse the body of a string literal after the opening quote;
`acc` holds the decoded characters in reverse. -/
def parseStringBody (acc : List Char) : List Char → Except ErrCode (String × List Char)
  | [] => .error .eofWhileParsingString
  | '"' :: rest => .ok (String.mk acc.reverse, rest)
  | '\\' :: rest =>
    match rest with
    | [] => .error .eofWhileParsingString
    | '"' :: r => parseStringBody ('"' :: acc) r
    | '\\' :: r => parseStringBody ('\\' :: acc) r
    | '/' :: r => parseStringBody ('/' :: acc) r
    | 'b' :: r => parseStringBody ('\x08' :: acc) r
    | 'f' :: r => parseStringBody ('\x0c' :: acc) r
    | 'n' :: r => parseStringBody ('\n' :: acc) r
    | 'r' :: r => parseStringBody ('\r' :: acc) r
    | 't' :: r => parseStringBody ('\t' :: acc) r
    | 'u' :: r =>
      match r with
      | c1 :: c2 :: c3 :: c4 :: r2 =>
        (match hexVal? c1, hexVal? c2, hexVal? c3, hexVal? c4 with
         | some h1, some h2, some h3, some h4 =>
           let n := ((h1 * 16 + h2) * 16 + h3) * 16 + h4
           if n < 0xD800 ∨ 0xDFFF < n then
             parseStringBody (Char.ofNat n :: acc) r2
           else if 0xDC00 ≤ n then .error .invalidUnicodeCodePoint
           else
             match r2 with
             | '\\' :: 'u' :: d1 :: d2 :: d3 :: d4 :: r3 =>
               (match hexVal? d1, hexVal? d2, hexVal? d3, hexVal? d4 with
                | some g1, some g2, some g3, some g4 =>
                  let m := ((g1 * 16 + g2) * 16 + g3) * 16 + g4
                  if 0xDC00 ≤ m ∧ m ≤ 0xDFFF then
                    parseStringBody
                      (Char.ofNat (0x10000 + (n - 0xD800) * 0x400 + (m - 0xDC00)) :: acc) r3
                  else .error .loneLeadingSurrogateInHexEscape
                | _, _, _, _ => .error .invalidEscape)
             | _ => .error .unexpectedEndOfHexEscape
         | _, _, _, _ => .error .invalidEscape)
      | _ => .error .eofWhileParsingString
    | _ => .error .invalidEscape
  | c :: rest =>
    if c.toNat < 0x20 then .error .controlCharacterWhileParsingString
    else parseStringBody (c :: acc) rest

/-- Take leading decimal digits. -/
def digitsTake : List Char → (List Char × List Char)
  | [] => ([], [])
  | c :: rest =>
    if c.isDigit then
      match digitsTake rest with
      | (ds, r) => (c :: ds, r)
    else ([], c :: rest)

/-- Decimal digits to a natural number. -/
def digitsToNat (acc : Nat) : List Char → Nat
  | [] => acc
  | c :: rest => digitsToNat (acc * 10 + (c.toNat - 48)) rest

/-- The integer value of a parsed sign and digit run. -/
def intToVal (neg : Bool) (ds : List Char) : Int :=
  if neg then -(digitsToNat 0 ds : Int) else (digitsToNat 0 ds : Int)

/-- Parse an exponent part (after `e`/`E`); the raw text so far is `pre`. -/
def parseExpPart (pre : List Char) (l : List Char) :
    Except ErrCode (Json × List Char) :=
  match l with
  | '+' :: r =>
    (match digitsTake r with
     | ([], _) => .error .invalidNumber
     | (ds, r2) => .ok (.fnum (String.mk (pre ++ 'e' :: '+' :: ds)), r2))
  | '-' :: r =>
    (match digitsTake r with
     | ([], _) => .error .invalidNumber
     | (ds, r2) => .ok (.fnum (String.mk (pre ++ 'e' :: '-' :: ds)), r2))
  | _ =>
    match digitsTake l with
    | ([], _) => .error .invalidNumber
    | (ds, r2) => .ok (.fnum (String.mk (pre ++ 'e' :: ds)), r2)

/-- Parse what follows the integer digits of a number: an optional
fraction and exponent make it a float, otherwise it is an integer. -/
def parseNumCore (neg : Bool) (intDs : List Char) (l : List Char) :
    Except ErrCode (Json × List Char) :=
  let pre := (if neg then ['-'] else []) ++ intDs
  match l with
  | '.' :: r =>
    (match digitsTake r with
     | ([], _) => .error .invalidNumber
     | (fds, r2) =>
       match r2 with
       | 'e' :: r3 => parseExpPart (pre ++ '.' :: fds) r3
       | 'E' :: r3 => parseExpPart (pre ++ '.' :: fds) r3
       | _ => .ok (.fnum (String.mk (pre ++ '.' :: fds)), r2))
  | 'e' :: r3 => parseExpPart pre r3
  | 'E' :: r3 => parseExpPart pre r3
  | _ => .ok (.num (intToVal neg intDs), l)

/-- Parse a number starting at `l` (after an optional leading `-` whose
presence is `neg`); leading zeros are rejected as in serde_json. -/
def parseNumFrom (neg : Bool) (l : List Char) :
    Except ErrCode (Json × List Char) :=
  match l with
  | [] => .error .eofWhileParsingValue
  | '0' :: rest =>
    (match rest with
     | d :: _ =>
       if d.isDigit then .error .invalidNumber else parseNumCore neg ['0'] rest
     | [] => parseNumCore neg ['0'] [])
  | c :: rest =>
    if c.isDigit then
      match digitsTake rest with
      | (ds, r) => parseNumCore neg (c :: ds) r
    else .error .invalidNumber

/-- Match a literal keyword (`null`, `true`, `false`). -/
def expectIdent (target : List Char) (l : List Char) :
    Except ErrCode (List Char) :=
  match target, l with
  | [], rest => .ok rest
  | _ :: _, [] => .error .eofWhileParsingValue
  | t :: ts, c :: rest =>
    if c = t then expectIdent ts rest else .error .expectedSomeIdent

mutual
/-- Parse one JSON value.  `depth` is serde_json's remaining recursion
depth (128 at top level); `fuel` is a structural bound of the embedding,
instantiated generously by `parseJsonText` (each recursive call consumes
input, so `2 * length + 8` can never run out). -/
def parseValueF : Nat → Nat → List Char → Except ErrCode (Json × List Char)
  | 0, _, _ => .error (.message "modelling fuel exhausted")
  | fuel+1, depth, l =>
    match l with
    | [] => .error .eofWhileParsingValue
    | c :: rest =>
      if c = 'n' then
        match expectIdent ['u', 'l', 'l'] rest with
        | .error e => .error e
        | .ok r => .ok (.null, r)
      else if c = 't' then
        match expectIdent ['r', 'u', 'e'] rest with
        | .error e => .error e
        | .ok r => .ok (.bool true, r)
      else if c = 'f' then
        match expectIdent ['a', 'l', 's', 'e'] rest with
        | .error e => .error e
        | .ok r => .ok (.bool false, r)
      else if c = '"' then
        match parseStringBody [] rest with
        | .error e => .error e
        | .ok (s, r) => .ok (.str s, r)
      else if c = '-' then parseNumFrom true rest
      else if c.isDigit then parseNumFrom false (c :: rest)
      else if c = '[' then
        if depth = 0 then .error .recursionLimitExceeded
        else
          match skipWs rest with
          | [] => .error .eofWhileParsingList
          | ']' :: r2 => .ok (.arr [], r2)
          | r1 => parseArrElemsF fuel (depth - 1) [] r1
      else if c = '{' then
        if depth = 0 then .error .recursionLimitExceeded
        else
          match skipWs rest with
          | '}' :: r2 => .ok (.obj [], r2)
          | r1 => parseObjEntriesF fuel (depth - 1) [] r1
      else .error .expectedSomeValue
/-- Parse array elements (at least one); `acc` holds parsed elements in
reverse. -/
def parseArrElemsF : Nat → Nat → List Json → List Char →
    Except ErrCode (Json × List Char)
  | 0, _, _, _ => .error (.message "modelling fuel exhausted")
  | fuel+1, depth, acc, l =>
    match parseValueF fuel depth l with
    | .error e => .error e
    | .ok (v, r) =>
      match skipWs r with
      | ',' :: r3 =>
        (match skipWs r3 with
         | ']' :: _ => .error .trailingComma
         | r4 => parseArrElemsF fuel depth (v :: acc) r4)
      | ']' :: r3 => .ok (.arr (v :: acc).reverse, r3)
      | [] => .error .eofWhileParsingList
      | _ => .error .expectedListCommaOrEnd
/-- Parse object entries (at least one); `acc` holds parsed entries in
reverse. -/
def parseObjEntriesF : Nat → Nat → List (String × Json) → List Char →
    Except ErrCode (Json × List Char)
  | 0, _, _, _ => .error (.message "modelling fuel exhausted")
  | fuel+1, depth, acc, l =>
    match l with
    | [] => .error .eofWhileParsingObject
    | '"' :: r =>
      (match parseStringBody [] r with
       | .error e => .error e
       | .ok (k, r2) =>
         match skipWs r2 with
         | ':' :: r4 =>
           (match parseValueF fuel depth (skipWs r4) with
            | .error e => .error e
            | .ok (v, r5) =>
              match skipWs r5 with
              | ',' :: r7 =>
                (match skipWs r7 with
                 | '}' :: _ => .error .trailingComma
                 | r8 => parseObjEntriesF fuel depth ((k, v) :: acc) r8)
              | '}' :: r7 => .ok (.obj ((k, v) :: acc).reverse, r7)
              | [] => .error .eofWhileParsingObject
              | _ => .error .expectedObjectCommaOrEnd)
         | [] => .error .eofWhileParsingObject
         | _ => .error .expectedColon)
    | _ => .error .keyMustBeAString
end

/-- Parse a complete JSON document: leading/trailing whitespace allowed,
anything after the value is a `trailingCharacters` error. -/
def parseJsonText (data : List Char) : Except ErrCode Json :=
  match parseValueF (2 * data.length + 8) 128 (skipWs data) with
  | .error e => .error e
  | .ok (v, rest) =>
    match skipWs rest with
    | [] => .ok v
    | _ => .error .trailingCharacters

/-- `serde_json::from_slice::<IApiSpecDoc>`. -/
def fromSliceIApiSpecDoc (data : List Char) : Except ErrCode IApiSpecDoc :=
  match parseJsonText data with
  | .error e => .error e
  | .ok j => decodeIApiSpecDoc j

/-- `IApiSpecDoc::parse`: parse json data into an `IApiSpecDoc` item,
wrapping any failure in an io error of kind `Other`. -/
def IApiSpecDoc.parse (data : List Char) : Except IoError IApiSpecDoc :=
  match fromSliceIApiSpecDoc data with
  | .ok d => .ok d
  | .error e => .error ⟨.other, e⟩

/-! ## Well-formedness

What the Rust types guarantee by construction: `u32` fields fit in 32
bits, and `IndexMap` keys are unique.  Decoding (which range-checks `u32`
and inserts into maps) establishes exactly this. -/

/-- `k` does not occur among the keys of `l`. -/
def keyFresh {A : Type} (k : String) : List (String × A) → Bool
  | [] => true
  | kv :: rest => (kv.1 != k) && keyFresh k rest

/-- The keys of `l` are pairwise distinct. -/
def keysNodupB {A : Type} : List (String × A) → Bool
  | [] => true
  | kv :: rest => keyFresh kv.1 rest && keysNodupB rest

mutual
/-- Well-formedness of a `Ty`: `StructContent.index` fits `u32` and
`Struct`/`Enum` content maps have unique keys, recursively. -/
def WFTy : Ty → Bool
  | .Optional _ c => WFTy c
  | .Array _ c => WFTy c
  | .Tuple _ l => WFSCList l
  | .Struct _ l => keysNodupB l && WFSCMap l
  | .Enum _ l => keysNodupB l && WFSCMap l
  | _ => true
/-- Well-formedness of a `StructContent`. -/
def WFSC : StructContent → Bool
  | .mk i c => decide (i < 4294967296) && WFTy c
/-- Well-formedness of every element of a `Vec<StructContent>`. -/
def WFSCList : List StructContent → Bool
  | [] => true
  | sc :: rest => WFSC sc && WFSCList rest
/-- Well-formedness of every value of a `StructContent` map. -/
def WFSCMap : List (String × StructContent) → Bool
  | [] => true
  | kv :: rest => WFSC kv.2 && WFSCMap rest
end

/-- Well-formedness of a `Feature`. -/
def WFFeature (f : Feature) : Bool := decide (f.stablized_revision < 4294967296)

/-- Well-formedness of an `IApiSpec`. -/
def WFIApiSpec (s : IApiSpec) : Bool :=
  decide (s.revision < 4294967296)
    && keysNodupB s.features && s.features.all (fun kv => WFFeature kv.2)
    && keysNodupB s.unstable_features
    && keysNodupB s.types && s.types.all (fun kv => WFTy kv.2)
    && keysNodupB s.calls_out
    && keysNodupB s.calls_in

/-- Well-formedness of an `IApiSpecDoc`. -/
def WFIApiSpecDoc (d : IApiSpecDoc) : Bool := WFIApiSpec d.inversion_api_spec

mutual
/-- Fuel needed by `decodeTyF` to decode the encoding of `t`: one unit
per nested `Type` level. -/
def needTy : Ty → Nat
  | .Optional _ c => needTy c + 1
  | .Array _ c => needTy c + 1
  | .Tuple _ l => needSCList l + 1
  | .Struct _ l => needSCMap l + 1
  | .Enum _ l => needSCMap l + 1
  | _ => 1
/-- Fuel needed for the content of a `StructContent`. -/
def needSC : StructContent → Nat
  | .mk _ c => needTy c
/-- Fuel needed for a list of `StructContent`. -/
def needSCList : List StructContent → Nat
  | [] => 0
  | sc :: rest => max (needSC sc) (needSCList rest)
/-- Fuel needed for a map of `StructContent`. -/
def needSCMap : List (String × StructContent) → Nat
  | [] => 0
  | kv :: rest => max (needSC kv.2) (needSCMap rest)
end

/-! ## Concrete documents used by the claim theorems -/

/-- A small well-formed example document. -/
def exDoc : IApiSpecDoc :=
  ⟨⟨⟨"gwSMYpO3kr5yLvTNR3KR4"⟩, "Key Value Persistence", 2, "errItem", none,
    [("set", ⟨some "set a value", 0, none⟩)],
    [("list", ⟨some "list keys"⟩)],
    [("errItem", .String none),
     ("structItem", .Struct none
        [("a", .mk 0 (.Null none)),
         ("b", .mk 1 (.Optional none (.Array none (.NamedType none "errItem"))))]),
     ("tupItem", .Tuple none [.mk 0 (.I32 none), .mk 1 (.U64 (some "count"))]),
     ("choice", .Enum (some "one of") [("l", .mk 0 (.Bool none))])],
    [], [("set", ⟨none, "set", "structItem", "errItem"⟩)]⟩⟩

/-- Malformed input: not well-formed JSON text. -/
def inputMalformed : List Char := "x".toList

/-- Input whose `types` entry carries the unrecognized discriminant
`float128`. -/
def inputUnknownVariant : List Char :=
  ("\x7b\"inversionApiSpec\":\x7b\"id\":\"x\",\"title\":\"t\",\"revision\":1,"
    ++ "\"errorType\":\"e\",\"features\":\x7b\x7d,\"unstableFeatures\":\x7b\x7d,"
    ++ "\"types\":\x7b\"a\":\x7b\"type\":\"float128\"\x7d\x7d,"
    ++ "\"callsOut\":\x7b\x7d,\"callsIn\":\x7b\x7d\x7d\x7d").toList

/-- Well-formed input missing the required `id` field of the spec. -/
def inputMissingField : List Char :=
  "\x7b\"inversionApiSpec\":\x7b\x7d\x7d".toList

/-- Well-formed input with a type mismatch on a present field. -/
def inputMismatch : List Char :=
  "\x7b\"inversionApiSpec\":5\x7d".toList

/-- Input carrying unrecognized extra keys at the document, spec, feature,
struct-content and call levels. -/
def inputExtraKeys : List Char :=
  ("\x7b\"bogus\":true,\"inversionApiSpec\":\x7b\"id\":\"x\",\"extra\":null,"
    ++ "\"title\":\"t\",\"revision\":1,\"errorType\":\"e\","
    ++ "\"features\":\x7b\"f\":\x7b\"stablizedRevision\":0,\"junk\":3\x7d\x7d,"
    ++ "\"unstableFeatures\":\x7b\x7d,"
    ++ "\"types\":\x7b\"s\":\x7b\"type\":\"struct\",\"content\":\x7b\"a\":"
    ++ "\x7b\"index\":0,\"content\":\x7b\"type\":\"null\"\x7d,\"surplus\":\"y\"\x7d\x7d\x7d\x7d,"
    ++ "\"callsOut\":\x7b\x7d,"
    ++ "\"callsIn\":\x7b\"c\":\x7b\"feature\":\"f\",\"input\":\"s\","
    ++ "\"output\":\"s\",\"extra2\":[1]\x7d\x7d\x7d\x7d").toList

/-- The document `inputExtraKeys` decodes to: the extra keys are gone. -/
def extraKeysDoc : IApiSpecDoc :=
  ⟨⟨⟨"x"⟩, "t", 1, "e", none,
    [("f", ⟨none, 0, none⟩)], [],
    [("s", .Struct none [("a", .mk 0 (.Null none))])],
    [], [("c", ⟨none, "f", "s", "s"⟩)]⟩⟩

/-! ## Helper lemmas: fields, keys, maps -/

theorem findField_not_mem {name : String} {acc : Option Json} :
    ∀ {fields : List (String × Json)}, name ∉ fields.map Prod.fst →
      findField name acc fields = .ok acc := by
  intro fields
  induction fields with
  | nil => intro _; rfl
  | cons kv rest ih =>
    intro h
    simp only [List.map_cons, List.mem_cons, not_or] at h
    obtain ⟨h1, h2⟩ := h
    obtain ⟨k, v⟩ := kv
    have h1' : ¬(k = name) := fun e => h1 e.symm
    simp only [findField, if_neg h1']
    exact ih h2

theorem getFieldD_not_mem {name : String} {fields : List (String × Json)}
    (h : name ∉ fields.map Prod.fst) : getFieldD name fields = .ok none :=
  findField_not_mem h

theorem keyFresh_iff {A : Type} (k : String) :
    ∀ (l : List (String × A)), keyFresh k l = true ↔ k ∉ l.map Prod.fst := by
  intro l
  induction l with
  | nil => simp [keyFresh]
  | cons kv rest ih =>
    simp only [keyFresh, Bool.and_eq_true, bne_iff_ne, ih, List.map_cons,
      List.mem_cons, not_or]
    constructor
    · rintro ⟨h1, h2⟩; exact ⟨fun e => h1 e.symm, h2⟩
    · rintro ⟨h1, h2⟩; exact ⟨fun e => h1 e.symm, h2⟩

theorem keysNodupB_iff {A : Type} :
    ∀ (l : List (String × A)), keysNodupB l = true ↔ (l.map Prod.fst).Nodup := by
  intro l
  induction l with
  | nil => simp [keysNodupB]
  | cons kv rest ih =>
    simp [keysNodupB, keyFresh_iff, ih, List.nodup_cons]

theorem imInsert_fresh {A : Type} {k : String} {a : A} :
    ∀ {l : List (String × A)}, k ∉ l.map Prod.fst →
      imInsert k a l = l ++ [(k, a)] := by
  intro l
  induction l with
  | nil => intro _; rfl
  | cons kv rest ih =>
    intro h
    simp only [List.map_cons, List.mem_cons, not_or] at h
    obtain ⟨h1, h2⟩ := h
    obtain ⟨k', v⟩ := kv
    have h1' : ¬(k' = k) := fun e => h1 e.symm
    simp only [imInsert, if_neg h1', List.cons_append,
      List.cons.injEq, true_and]
    exact ih h2

theorem map_fst_imInsert {A : Type} (k : String) (a : A) :
    ∀ (l : List (String × A)),
      (imInsert k a l).map Prod.fst
        = if k ∈ l.map Prod.fst then l.map Prod.fst
          else l.map Prod.fst ++ [k] := by
  intro l
  induction l with
  | nil => simp [imInsert]
  | cons kv rest ih =>
    obtain ⟨k', v⟩ := kv
    by_cases hk : k' = k
    · subst hk
      simp [imInsert]
    · simp only [imInsert, if_neg hk, List.map_cons, ih, List.mem_cons]
      by_cases hmem : k ∈ rest.map Prod.fst
      · simp [hmem]
      · have hk' : ¬(k = k') := fun e => hk e.symm
        simp [hmem, hk']

theorem mem_imInsert {A : Type} (k : String) (a : A) :
    ∀ (l : List (String × A)) (kv : String × A), kv ∈ imInsert k a l →
      kv ∈ l ∨ kv.2 = a := by
  intro l
  induction l with
  | nil =>
    intro kv h
    simp only [imInsert, List.mem_singleton] at h
    right; rw [h]
  | cons kv0 rest ih =>
    intro kv h
    obtain ⟨k0, v0⟩ := kv0
    simp only [imInsert] at h
    by_cases hk : k0 = k
    · rw [if_pos hk] at h
      rcases List.mem_cons.mp h with h1 | h1
      · right; rw [h1]
      · left; exact List.mem_cons_of_mem _ h1
    · rw [if_neg hk] at h
      rcases List.mem_cons.mp h with h1 | h1
      · left; rw [h1]; exact List.mem_cons_self _ _
      · rcases ih kv h1 with h2 | h2
        · left; exact List.mem_cons_of_mem _ h2
        · right; exact h2

theorem decodeEntries_encode {A : Type} (dec : Json → Except ErrCode A)
    (f : A → Json) :
    ∀ (m acc : List (String × A)),
      (∀ kv ∈ m, dec (f kv.2) = .ok kv.2) →
      ((acc ++ m).map Prod.fst).Nodup →
      decodeEntriesWith dec (m.map (fun kv => (kv.1, f kv.2))) acc
        = .ok (acc ++ m) := by
  intro m
  induction m with
  | nil => intro acc _ _; simp [decodeEntriesWith]
  | cons kv rest ih =>
    intro acc hpt hnd
    obtain ⟨k, a⟩ := kv
    have hdec : dec (f a) = .ok a := hpt (k, a) (List.mem_cons_self _ _)
    simp only [List.map_cons, decodeEntriesWith, hdec]
    simp only [List.map_append, List.map_cons] at hnd
    have hnd2 := List.nodup_middle.mp hnd
    have hfresh : k ∉ acc.map Prod.fst := fun hmem =>
      (List.nodup_cons.mp hnd2).1 (List.mem_append.mpr (Or.inl hmem))
    rw [imInsert_fresh hfresh]
    rw [ih (acc ++ [(k, a)])
      (fun kv hkv => hpt kv (List.mem_cons_of_mem _ hkv))
      (by simpa using hnd)]
    simp

theorem decodeEntries_keys {A : Type} (dec : Json → Except ErrCode A) :
    ∀ (entries : List (String × Json)) (acc m : List (String × A)),
      (acc.map Prod.fst ++ entries.map Prod.fst).Nodup →
      decodeEntriesWith dec entries acc = .ok m →
      m.map Prod.fst = acc.map Prod.fst ++ entries.map Prod.fst := by
  intro entries
  induction entries with
  | nil =>
    intro acc m _ h
    simp only [decodeEntriesWith, Except.ok.injEq] at h
    rw [← h]; simp
  | cons kv rest ih =>
    intro acc m hnd h
    obtain ⟨k, v⟩ := kv
    cases hdec : dec v with
    | error e =>
      simp only [decodeEntriesWith, hdec] at h
      exact absurd h (by simp)
    | ok a =>
      simp only [decodeEntriesWith, hdec] at h
      simp only [List.map_cons] at hnd
      have hnd2 := List.nodup_middle.mp hnd
      have hfresh : k ∉ acc.map Prod.fst := fun hmem =>
        (List.nodup_cons.mp hnd2).1 (List.mem_append.mpr (Or.inl hmem))
      rw [imInsert_fresh hfresh] at h
      have := ih (acc ++ [(k, a)]) m (by simpa using hnd) h
      rw [this]; simp

theorem decodeEntries_nodup {A : Type} (dec : Json → Except ErrCode A) :
    ∀ (entries : List (String × Json)) (acc m : List (String × A)),
      (acc.map Prod.fst).Nodup →
      decodeEntriesWith dec entries acc = .ok m →
      (m.map Prod.fst).Nodup := by
  intro entries
  induction entries with
  | nil =>
    intro acc m hacc h
    simp only [decodeEntriesWith, Except.ok.injEq] at h
    rw [← h]; exact hacc
  | cons kv rest ih =>
    intro acc m hacc h
    obtain ⟨k, v⟩ := kv
    cases hdec : dec v with
    | error e =>
      simp only [decodeEntriesWith, hdec] at h
      exact absurd h (by simp)
    | ok a =>
      simp only [decodeEntriesWith, hdec] at h
      refine ih _ m ?_ h
      rw [map_fst_imInsert]
      by_cases hmem : k ∈ acc.map Prod.fst
      · rw [if_pos hmem]; exact hacc
      · rw [if_neg hmem]
        exact List.Nodup.append hacc (List.nodup_singleton k)
          (by simpa [List.disjoint_singleton] using hmem)

theorem decodeEntries_pred {A : Type} (dec : Json → Except ErrCode A)
    (P : A → Prop) (hdec : ∀ j a, dec j = .ok a → P a) :
    ∀ (entries : List (String × Json)) (acc m : List (String × A)),
      (∀ kv ∈ acc, P kv.2) →
      decodeEntriesWith dec entries acc = .ok m →
      ∀ kv ∈ m, P kv.2 := by
  intro entries
  induction entries with
  | nil =>
    intro acc m hacc h
    simp only [decodeEntriesWith, Except.ok.injEq] at h
    rw [← h]; exact hacc
  | cons kv0 rest ih =>
    intro acc m hacc h
    obtain ⟨k, v⟩ := kv0
    cases hd : dec v with
    | error e =>
      simp only [decodeEntriesWith, hd] at h
      exact absurd h (by simp)
    | ok a =>
      simp only [decodeEntriesWith, hd] at h
      refine ih _ m ?_ h
      intro kv hkv
      rcases mem_imInsert k a _ kv hkv with h1 | h1
      · exact hacc kv h1
      · rw [h1]; exact hdec v a hd

theorem decodeList_encode {A : Type} (dec : Json → Except ErrCode A)
    (f : A → Json) :
    ∀ (l : List A), (∀ x ∈ l, dec (f x) = .ok x) →
      decodeListWith dec (l.map f) = .ok l := by
  intro l
  induction l with
  | nil => intro _; rfl
  | cons x rest ih =>
    intro hpt
    simp only [List.map_cons, decodeListWith,
      hpt x (List.mem_cons_self _ _),
      ih (fun y hy => hpt y (List.mem_cons_of_mem _ hy))]

theorem decodeList_pred {A : Type} (dec : Json → Except ErrCode A)
    (P : A → Prop) (hdec : ∀ j a, dec j = .ok a → P a) :
    ∀ (items : List Json) (l : List A),
      decodeListWith dec items = .ok l → ∀ a ∈ l, P a := by
  intro items
  induction items with
  | nil =>
    intro l h
    simp only [decodeListWith, Except.ok.injEq] at h
    rw [← h]; simp
  | cons j rest ih =>
    intro l h
    cases hd : dec j with
    | error e =>
      simp only [decodeListWith, hd] at h
      exact absurd h (by simp)
    | ok a =>
      cases hr : decodeListWith dec rest with
      | error e =>
        simp only [decodeListWith, hd, hr] at h
        exact absurd h (by simp)
      | ok as =>
        simp only [decodeListWith, hd, hr, Except.ok.injEq] at h
        rw [← h]
        intro x hx
        rcases List.mem_cons.mp hx with h1 | h1
        · rw [h1]; exact hdec j a hd
        · exact ih as hr x h1

/-! ## Encoder/decoder round trip -/

theorem decodeU32_ofNat (n : Nat) (h : n < 4294967296) :
    decodeU32 (.num (Int.ofNat n)) = .ok n := by
  simp only [decodeU32]
  rw [if_pos h]

theorem dec_enc_Feature (f : Feature) (h : WFFeature f = true) :
    decodeFeature (encodeFeature f) = .ok f := by
  obtain ⟨d, sr, dep⟩ := f
  simp only [WFFeature, decide_eq_true_eq] at h
  cases d <;> cases dep <;>
    simp only [encodeFeature, encodeOptStr, encodeOptBool, List.nil_append,
      List.cons_append, List.append_nil, decodeFeature, decodeOptField,
      getFieldD, findField, reqFieldD, String.reduceEq, reduceIte,
      decodeString, decodeBool, bind, Except.bind, decodeU32_ofNat _ h]

theorem dec_enc_UnstableFeature (f : UnstableFeature) :
    decodeUnstableFeature (encodeUnstableFeature f) = .ok f := by
  obtain ⟨d⟩ := f
  cases d <;>
    simp only [encodeUnstableFeature, encodeOptStr, decodeUnstableFeature,
      decodeOptField, getFieldD, findField, String.reduceEq, reduceIte,
      decodeString, bind, Except.bind]

theorem dec_enc_Call (c : Call) : decodeCall (encodeCall c) = .ok c := by
  obtain ⟨d, f, i, o⟩ := c
  cases d <;>
    simp only [encodeCall, encodeOptStr, List.nil_append, List.cons_append,
      decodeCall, decodeOptField, getFieldD, findField, reqFieldD,
      String.reduceEq, reduceIte, decodeString, bind, Except.bind]

theorem encodeSCList_eq_map : ∀ l, encodeSCList l = l.map encodeStructContent
  | [] => rfl
  | sc :: rest => by
    simp only [encodeSCList, List.map_cons, encodeSCList_eq_map rest]

theorem encodeSCMap_eq_map : ∀ l,
    encodeSCMap l = l.map (fun kv => (kv.1, encodeStructContent kv.2))
  | [] => rfl
  | kv :: rest => by
    simp only [encodeSCMap, List.map_cons, encodeSCMap_eq_map rest]

mutual
theorem dec_enc_Ty : ∀ (t : Ty), WFTy t = true → ∀ fuel, needTy t ≤ fuel →
    decodeTyF fuel (encodeTy t) = .ok t
  | .Null d => by
    intro _ fuel hf
    simp only [needTy] at hf
    obtain ⟨f, rfl⟩ : ∃ f, fuel = f + 1 := ⟨fuel - 1, by omega⟩
    cases d <;>
      simp only [encodeTy, encodeOptStr, List.cons_append, List.nil_append,
        decodeTyF, getTag, getFieldD, findField, String.reduceEq, reduceIte,
        decodeOptField, decodeString, bind, Except.bind]
  | .Bool d => by
    intro _ fuel hf
    simp only [needTy] at hf
    obtain ⟨f, rfl⟩ : ∃ f, fuel = f + 1 := ⟨fuel - 1, by omega⟩
    cases d <;>
      simp only [encodeTy, encodeOptStr, List.cons_append, List.nil_append,
        decodeTyF, getTag, getFieldD, findField, String.reduceEq, reduceIte,
        decodeOptField, decodeString, bind, Except.bind]
  | .I32 d => by
    intro _ fuel hf
    simp only [needTy] at hf
    obtain ⟨f, rfl⟩ : ∃ f, fuel = f + 1 := ⟨fuel - 1, by omega⟩
    cases d <;>
      simp only [encodeTy, encodeOptStr, List.cons_append, List.nil_append,
        decodeTyF, getTag, getFieldD, findField, String.reduceEq, reduceIte,
        decodeOptField, decodeString, bind, Except.bind]
  | .U32 d => by
    intro _ fuel hf
    simp only [needTy] at hf
    obtain ⟨f, rfl⟩ : ∃ f, fuel = f + 1 := ⟨fuel - 1, by omega⟩
    cases d <;>
      simp only [encodeTy, encodeOptStr, List.cons_append, List.nil_append,
        decodeTyF, getTag, getFieldD, findField, String.reduceEq, reduceIte,
        decodeOptField, decodeString, bind, Except.bind]
  | .I64 d => by
    intro _ fuel hf
    simp only [needTy] at hf
    obtain ⟨f, rfl⟩ : ∃ f, fuel = f + 1 := ⟨fuel - 1, by omega⟩
    cases d <;>
      simp only [encodeTy, encodeOptStr, List.cons_append, List.nil_append,
        decodeTyF, getTag, getFieldD, findField, String.reduceEq, reduceIte,
        decodeOptField, decodeString, bind, Except.bind]
  | .U64 d => by
    intro _ fuel hf
    simp only [needTy] at hf
    obtain ⟨f, rfl⟩ : ∃ f, fuel = f + 1 := ⟨fuel - 1, by omega⟩
    cases d <;>
      simp only [encodeTy, encodeOptStr, List.cons_append, List.nil_append,
        decodeTyF, getTag, getFieldD, findField, String.reduceEq, reduceIte,
        decodeOptField, decodeString, bind, Except.bind]
  | .F64 d => by
    intro _ fuel hf
    simp only [needTy] at hf
    obtain ⟨f, rfl⟩ : ∃ f, fuel = f + 1 := ⟨fuel - 1, by omega⟩
    cases d <;>
      simp only [encodeTy, encodeOptStr, List.cons_append, List.nil_append,
        decodeTyF, getTag, getFieldD, findField, String.reduceEq, reduceIte,
        decodeOptField, decodeString, bind, Except.bind]
  | .Bytes d => by
    intro _ fuel hf
    simp only [needTy] at hf
    obtain ⟨f, rfl⟩ : ∃ f, fuel = f + 1 := ⟨fuel - 1, by omega⟩
    cases d <;>
      simp only [encodeTy, encodeOptStr, List.cons_append, List.nil_append,
        decodeTyF, getTag, getFieldD, findField, String.reduceEq, reduceIte,
        decodeOptField, decodeString, bind, Except.bind]
  | .String d => by
    intro _ fuel hf
    simp only [needTy] at hf
    obtain ⟨f, rfl⟩ : ∃ f, fuel = f + 1 := ⟨fuel - 1, by omega⟩
    cases d <;>
      simp only [encodeTy, encodeOptStr, List.cons_append, List.nil_append,
        decodeTyF, getTag, getFieldD, findField, String.reduceEq, reduceIte,
        decodeOptField, decodeString, bind, Except.bind]
  | .NamedType d s => by
    intro _ fuel hf
    simp only [needTy] at hf
    obtain ⟨f, rfl⟩ : ∃ f, fuel = f + 1 := ⟨fuel - 1, by omega⟩
    cases d <;>
      simp only [encodeTy, encodeOptStr, List.cons_append, List.nil_append,
        List.append_nil, decodeTyF, getTag, getFieldD, findField, reqFieldD,
        String.reduceEq, reduceIte, decodeOptField, decodeString,
        bind, Except.bind]
  | .Optional d c => by
    intro h fuel hf
    simp only [WFTy] at h
    simp only [needTy] at hf
    obtain ⟨f, rfl⟩ : ∃ f, fuel = f + 1 := ⟨fuel - 1, by omega⟩
    have hc := dec_enc_Ty c h f (by omega)
    cases d <;>
      simp only [encodeTy, encodeOptStr, List.cons_append, List.nil_append,
        List.append_nil, decodeTyF, getTag, getFieldD, findField, reqFieldD,
        String.reduceEq, reduceIte, decodeOptField, decodeString,
        bind, Except.bind, hc]
  | .Array d c => by
    intro h fuel hf
    simp only [WFTy] at h
    simp only [needTy] at hf
    obtain ⟨f, rfl⟩ : ∃ f, fuel = f + 1 := ⟨fuel - 1, by omega⟩
    have hc := dec_enc_Ty c h f (by omega)
    cases d <;>
      simp only [encodeTy, encodeOptStr, List.cons_append, List.nil_append,
        List.append_nil, decodeTyF, getTag, getFieldD, findField, reqFieldD,
        String.reduceEq, reduceIte, decodeOptField, decodeString,
        bind, Except.bind, hc]
  | .Tuple d l => by
    intro h fuel hf
    simp only [WFTy] at h
    simp only [needTy] at hf
    obtain ⟨f, rfl⟩ : ∃ f, fuel = f + 1 := ⟨fuel - 1, by omega⟩
    have hpt := dec_enc_SCListPt l h f (by omega)
    have hlist : decodeListWith
        (fun sj => decodeSCWith (fun tj => decodeTyF f tj) sj)
        (encodeSCList l) = .ok l := by
      rw [encodeSCList_eq_map]
      exact decodeList_encode _ _ l hpt
    cases d <;>
      simp only [encodeTy, encodeOptStr, List.cons_append, List.nil_append,
        List.append_nil, decodeTyF, getTag, getFieldD, findField, reqFieldD,
        String.reduceEq, reduceIte, decodeOptField, decodeString,
        bind, Except.bind, hlist]
  | .Struct d l => by
    intro h fuel hf
    simp only [WFTy, Bool.and_eq_true] at h
    obtain ⟨hnd, hwf⟩ := h
    simp only [needTy] at hf
    obtain ⟨f, rfl⟩ : ∃ f, fuel = f + 1 := ⟨fuel - 1, by omega⟩
    have hpt := dec_enc_SCMapPt l hwf f (by omega)
    have hmap : decodeEntriesWith
        (fun sj => decodeSCWith (fun tj => decodeTyF f tj) sj)
        (encodeSCMap l) [] = .ok l := by
      rw [encodeSCMap_eq_map]
      have := decodeEntries_encode
        (fun sj => decodeSCWith (fun tj => decodeTyF f tj) sj)
        encodeStructContent l [] hpt
        (by simpa using (keysNodupB_iff l).mp hnd)
      simpa using this
    cases d <;>
      simp only [encodeTy, encodeOptStr, List.cons_append, List.nil_append,
        List.append_nil, decodeTyF, getTag, getFieldD, findField, reqFieldD,
        String.reduceEq, reduceIte, decodeOptField, decodeString,
        bind, Except.bind, hmap]
  | .Enum d l => by
    intro h fuel hf
    simp only [WFTy, Bool.and_eq_true] at h
    obtain ⟨hnd, hwf⟩ := h
    simp only [needTy] at hf
    obtain ⟨f, rfl⟩ : ∃ f, fuel = f + 1 := ⟨fuel - 1, by omega⟩
    have hpt := dec_enc_SCMapPt l hwf f (by omega)
    have hmap : decodeEntriesWith
        (fun sj => decodeSCWith (fun tj => decodeTyF f tj) sj)
        (encodeSCMap l) [] = .ok l := by
      rw [encodeSCMap_eq_map]
      have := decodeEntries_encode
        (fun sj => decodeSCWith (fun tj => decodeTyF f tj) sj)
        encodeStructContent l [] hpt
        (by simpa using (keysNodupB_iff l).mp hnd)
      simpa using this
    cases d <;>
      simp only [encodeTy, encodeOptStr, List.cons_append, List.nil_append,
        List.append_nil, decodeTyF, getTag, getFieldD, findField, reqFieldD,
        String.reduceEq, reduceIte, decodeOptField, decodeString,
        bind, Except.bind, hmap]

theorem dec_enc_SC : ∀ (sc : StructContent), WFSC sc = true →
    ∀ fuel, needSC sc ≤ fuel →
    decodeSCWith (fun tj => decodeTyF fuel tj) (encodeStructContent sc)
      = .ok sc
  | .mk i c => by
    intro h fuel hf
    simp only [WFSC, Bool.and_eq_true, decide_eq_true_eq] at h
    obtain ⟨hi, hc⟩ := h
    simp only [needSC] at hf
    have hct := dec_enc_Ty c hc fuel hf
    simp only [encodeStructContent, decodeSCWith, reqFieldD, getFieldD,
      findField, String.reduceEq, reduceIte, bind, Except.bind,
      decodeU32_ofNat i hi, hct]

theorem dec_enc_SCListPt : ∀ (l : List StructContent), WFSCList l = true →
    ∀ fuel, needSCList l ≤ fuel →
    ∀ sc ∈ l, decodeSCWith (fun tj => decodeTyF fuel tj)
      (encodeStructContent sc) = .ok sc
  | [] => by
    intro _ fuel _ sc hsc
    exact absurd hsc (List.not_mem_nil sc)
  | sc0 :: rest => by
    intro h fuel hf sc hsc
    simp only [WFSCList, Bool.and_eq_true] at h
    simp only [needSCList, Nat.max_le] at hf
    rcases List.mem_cons.mp hsc with h1 | h1
    · rw [h1]
      exact dec_enc_SC sc0 h.1 fuel hf.1
    · exact dec_enc_SCListPt rest h.2 fuel hf.2 sc h1

theorem dec_enc_SCMapPt : ∀ (l : List (Str × StructContent)),
    WFSCMap l = true → ∀ fuel, needSCMap l ≤ fuel →
    ∀ kv ∈ l, decodeSCWith (fun tj => decodeTyF fuel tj)
      (encodeStructContent kv.2) = .ok kv.2
  | [] => by
    intro _ fuel _ kv hkv
    exact absurd hkv (List.not_mem_nil kv)
  | kv0 :: rest => by
    intro h fuel hf kv hkv
    simp only [WFSCMap, Bool.and_eq_true] at h
    simp only [needSCMap, Nat.max_le] at hf
    rcases List.mem_cons.mp hkv with h1 | h1
    · rw [h1]
      exact dec_enc_SC kv0.2 h.1 fuel hf.1
    · exact dec_enc_SCMapPt rest h.2 fuel hf.2 kv h1
end

mutual
theorem needTy_le_jdepth : ∀ (t : Ty), needTy t ≤ jdepthV (encodeTy t)
  | .Null d => by
    cases d <;> simp [needTy, encodeTy, encodeOptStr, jdepthV]
  | .Bool d => by
    cases d <;> simp [needTy, encodeTy, encodeOptStr, jdepthV]
  | .I32 d => by
    cases d <;> simp [needTy, encodeTy, encodeOptStr, jdepthV]
  | .U32 d => by
    cases d <;> simp [needTy, encodeTy, encodeOptStr, jdepthV]
  | .I64 d => by
    cases d <;> simp [needTy, encodeTy, encodeOptStr, jdepthV]
  | .U64 d => by
    cases d <;> simp [needTy, encodeTy, encodeOptStr, jdepthV]
  | .F64 d => by
    cases d <;> simp [needTy, encodeTy, encodeOptStr, jdepthV]
  | .Bytes d => by
    cases d <;> simp [needTy, encodeTy, encodeOptStr, jdepthV]
  | .String d => by
    cases d <;> simp [needTy, encodeTy, encodeOptStr, jdepthV]
  | .NamedType d s => by
    cases d <;> simp [needTy, encodeTy, encodeOptStr, jdepthV]
  | .Optional d c => by
    have hc := needTy_le_jdepth c
    cases d <;>
      (simp [needTy, encodeTy, encodeOptStr, jdepthV, jdepthO]; omega)
  | .Array d c => by
    have hc := needTy_le_jdepth c
    cases d <;>
      (simp [needTy, encodeTy, encodeOptStr, jdepthV, jdepthO]; omega)
  | .Tuple d l => by
    have hl := needSCList_le_jdepth l
    cases d <;>
      (simp [needTy, encodeTy, encodeOptStr, jdepthV, jdepthO]; omega)
  | .Struct d l => by
    have hl := needSCMap_le_jdepth l
    cases d <;>
      (simp [needTy, encodeTy, encodeOptStr, jdepthV, jdepthO]; omega)
  | .Enum d l => by
    have hl := needSCMap_le_jdepth l
    cases d <;>
      (simp [needTy, encodeTy, encodeOptStr, jdepthV, jdepthO]; omega)

theorem needSC_lt_jdepth : ∀ (sc : StructContent),
    needSC sc < jdepthV (encodeStructContent sc)
  | .mk i c => by
    have hc := needTy_le_jdepth c
    simp [needSC, encodeStructContent, jdepthV, jdepthO]
    omega

theorem needSCList_le_jdepth : ∀ (l : List StructContent),
    needSCList l ≤ jdepthL (encodeSCList l)
  | [] => by simp [needSCList, encodeSCList, jdepthL]
  | sc :: rest => by
    have h1 := needSC_lt_jdepth sc
    have h2 := needSCList_le_jdepth rest
    simp only [needSCList, encodeSCList, jdepthL]
    omega

theorem needSCMap_le_jdepth : ∀ (l : List (Str × StructContent)),
    needSCMap l ≤ jdepthO (encodeSCMap l)
  | [] => by simp [needSCMap, encodeSCMap, jdepthO]
  | kv :: rest => by
    have h1 := needSC_lt_jdepth kv.2
    have h2 := needSCMap_le_jdepth rest
    simp only [needSCMap, encodeSCMap, jdepthO]
    omega
end

theorem dec_enc_TyTop (t : Ty) (h : WFTy t = true) :
    decodeTyTop (encodeTy t) = .ok t :=
  dec_enc_Ty t h _ (needTy_le_jdepth t)

theorem dec_enc_IMap {A : Type} (dec : Json → Except ErrCode A)
    (f : A → Json) (m : List (String × A))
    (hpt : ∀ kv ∈ m, dec (f kv.2) = .ok kv.2)
    (hnd : keysNodupB m = true) :
    decodeIMap dec (encodeIMap f m) = .ok m := by
  simp only [encodeIMap, decodeIMap]
  have := decodeEntries_encode dec f m [] hpt
    (by simpa using (keysNodupB_iff m).mp hnd)
  simpa using this

theorem dec_enc_IApiSpec (s : IApiSpec) (h : WFIApiSpec s = true) :
    decodeIApiSpec (encodeIApiSpec s) = .ok s := by
  obtain ⟨i, t, r, et, u, fs, ufs, tys, co, ci⟩ := s
  simp only [WFIApiSpec, Bool.and_eq_true, decide_eq_true_eq,
    List.all_eq_true] at h
  obtain ⟨⟨⟨⟨⟨⟨⟨h1, h2⟩, h3⟩, h4⟩, h5⟩, h6⟩, h7⟩, h8⟩ := h
  have hid : decodeNanoId (encodeNanoId i) = .ok i := by
    obtain ⟨v⟩ := i; rfl
  have hfsm := dec_enc_IMap decodeFeature encodeFeature fs
    (fun kv hkv => dec_enc_Feature kv.2 (h3 kv hkv)) h2
  have hufsm := dec_enc_IMap decodeUnstableFeature encodeUnstableFeature ufs
    (fun kv _ => dec_enc_UnstableFeature kv.2) h4
  have htysm := dec_enc_IMap decodeTyTop encodeTy tys
    (fun kv hkv => dec_enc_TyTop kv.2 (h6 kv hkv)) h5
  have hcom := dec_enc_IMap decodeCall encodeCall co
    (fun kv _ => dec_enc_Call kv.2) h7
  have hcim := dec_enc_IMap decodeCall encodeCall ci
    (fun kv _ => dec_enc_Call kv.2) h8
  cases u <;>
    simp only [encodeIApiSpec, encodeOptBool, List.cons_append,
      List.nil_append, List.append_nil, decodeIApiSpec, decodeOptField,
      reqFieldD, getFieldD, findField, String.reduceEq, reduceIte,
      decodeString, decodeBool, bind, Except.bind, hid,
      decodeU32_ofNat r h1, hfsm, hufsm, htysm, hcom, hcim]

theorem dec_enc_IApiSpecDoc (d : IApiSpecDoc) (h : WFIApiSpecDoc d = true) :
    decodeIApiSpecDoc (encodeIApiSpecDoc d) = .ok d := by
  obtain ⟨s⟩ := d
  have hs := dec_enc_IApiSpec s h
  simp only [encodeIApiSpecDoc, decodeIApiSpecDoc, reqFieldD, getFieldD,
    findField, String.reduceEq, reduceIte, bind, Except.bind, hs]

/-! ## Decoding establishes well-formedness -/

theorem dec_wf_U32 : ∀ (j : Json) (n : Nat), decodeU32 j = .ok n →
    n < 4294967296 := by
  intro j n h
  cases j with
  | num m =>
    cases m with
    | ofNat m0 =>
      simp only [decodeU32] at h
      by_cases hm : m0 < 4294967296
      · rw [if_pos hm] at h
        simp only [Except.ok.injEq] at h
        rw [← h]; exact hm
      · rw [if_neg hm] at h
        exact absurd h (by simp)
    | negSucc m0 => exact absurd h (by simp [decodeU32])
  | null => exact absurd h (by simp [decodeU32])
  | bool b => exact absurd h (by simp [decodeU32])
  | fnum r => exact absurd h (by simp [decodeU32])
  | str s => exact absurd h (by simp [decodeU32])
  | arr l => exact absurd h (by simp [decodeU32])
  | obj l => exact absurd h (by simp [decodeU32])

theorem dec_wf_Feature : ∀ (j : Json) (f : Feature),
    decodeFeature j = .ok f → WFFeature f = true := by
  intro j f h
  cases j with
  | obj fields =>
    cases hd : decodeOptField decodeString "doc" fields with
    | error e =>
      simp only [decodeFeature, bind, Except.bind, hd] at h
      exact absurd h (by simp)
    | ok d0 =>
      cases hr : reqFieldD "stablizedRevision" fields with
      | error e =>
        simp only [decodeFeature, bind, Except.bind, hd, hr] at h
        exact absurd h (by simp)
      | ok v =>
        cases hu : decodeU32 v with
        | error e =>
          simp only [decodeFeature, bind, Except.bind, hd, hr, hu] at h
          exact absurd h (by simp)
        | ok sr0 =>
          cases hdep : decodeOptField decodeBool "deprecated" fields with
          | error e =>
            simp only [decodeFeature, bind, Except.bind, hd, hr, hu, hdep] at h
            exact absurd h (by simp)
          | ok dep0 =>
            simp only [decodeFeature, bind, Except.bind, hd, hr, hu, hdep,
              Except.ok.injEq] at h
            rw [← h]
            simp only [WFFeature, decide_eq_true_eq]
            exact dec_wf_U32 v sr0 hu
  | null => exact absurd h (by simp [decodeFeature])
  | bool b => exact absurd h (by simp [decodeFeature])
  | num n => exact absurd h (by simp [decodeFeature])
  | fnum r => exact absurd h (by simp [decodeFeature])
  | str s => exact absurd h (by simp [decodeFeature])
  | arr l => exact absurd h (by simp [decodeFeature])

theorem dec_wf_IMap_nodup {A : Type} (dec : Json → Except ErrCode A) :
    ∀ (j : Json) (m : List (String × A)), decodeIMap dec j = .ok m →
      keysNodupB m = true := by
  intro j m h
  cases j with
  | obj fields =>
    simp only [decodeIMap] at h
    exact (keysNodupB_iff m).mpr
      (decodeEntries_nodup dec fields [] m (by simp) h)
  | null => exact absurd h (by simp [decodeIMap])
  | bool b => exact absurd h (by simp [decodeIMap])
  | num n => exact absurd h (by simp [decodeIMap])
  | fnum r => exact absurd h (by simp [decodeIMap])
  | str s => exact absurd h (by simp [decodeIMap])
  | arr l => exact absurd h (by simp [decodeIMap])

theorem dec_wf_IMap_pred {A : Type} (dec : Json → Except ErrCode A)
    (P : A → Prop) (hdec : ∀ j a, dec j = .ok a → P a) :
    ∀ (j : Json) (m : List (String × A)), decodeIMap dec j = .ok m →
      ∀ kv ∈ m, P kv.2 := by
  intro j m h
  cases j with
  | obj fields =>
    simp only [decodeIMap] at h
    exact decodeEntries_pred dec P hdec fields [] m (by simp) h
  | null => exact absurd h (by simp [decodeIMap])
  | bool b => exact absurd h (by simp [decodeIMap])
  | num n => exact absurd h (by simp [decodeIMap])
  | fnum r => exact absurd h (by simp [decodeIMap])
  | str s => exact absurd h (by simp [decodeIMap])
  | arr l => exact absurd h (by simp [decodeIMap])

theorem WFSCList_of_all : ∀ (l : List StructContent),
    (∀ sc ∈ l, WFSC sc = true) → WFSCList l = true := by
  intro l
  induction l with
  | nil => intro _; rfl
  | cons sc rest ih =>
    intro h
    simp only [WFSCList, Bool.and_eq_true]
    exact ⟨h sc (List.mem_cons_self _ _),
      ih (fun x hx => h x (List.mem_cons_of_mem _ hx))⟩

theorem WFSCMap_of_all : ∀ (l : List (Str × StructContent)),
    (∀ kv ∈ l, WFSC kv.2 = true) → WFSCMap l = true := by
  intro l
  induction l with
  | nil => intro _; rfl
  | cons kv rest ih =>
    intro h
    simp only [WFSCMap, Bool.and_eq_true]
    exact ⟨h kv (List.mem_cons_self _ _),
      ih (fun x hx => h x (List.mem_cons_of_mem _ hx))⟩

theorem dec_wf_SCWith (decTy : Json → Except ErrCode Ty)
    (hdecTy : ∀ j t, decTy j = .ok t → WFTy t = true) :
    ∀ (j : Json) (sc : StructContent), decodeSCWith decTy j = .ok sc →
      WFSC sc = true := by
  intro j sc h
  cases j with
  | obj fields =>
    cases hi : reqFieldD "index" fields with
    | error e =>
      simp only [decodeSCWith, bind, Except.bind, hi] at h
      exact absurd h (by simp)
    | ok iv =>
      cases hu : decodeU32 iv with
      | error e =>
        simp only [decodeSCWith, bind, Except.bind, hi, hu] at h
        exact absurd h (by simp)
      | ok i0 =>
        cases hc : reqFieldD "content" fields with
        | error e =>
          simp only [decodeSCWith, bind, Except.bind, hi, hu, hc] at h
          exact absurd h (by simp)
        | ok cv =>
          cases hct : decTy cv with
          | error e =>
            simp only [decodeSCWith, bind, Except.bind, hi, hu, hc, hct] at h
            exact absurd h (by simp)
          | ok c0 =>
            simp only [decodeSCWith, bind, Except.bind, hi, hu, hc, hct,
              Except.ok.injEq] at h
            rw [← h]
            simp only [WFSC, Bool.and_eq_true, decide_eq_true_eq]
            exact ⟨dec_wf_U32 iv i0 hu, hdecTy cv c0 hct⟩
  | null => exact absurd h (by simp [decodeSCWith])
  | bool b => exact absurd h (by simp [decodeSCWith])
  | num n => exact absurd h (by simp [decodeSCWith])
  | fnum r => exact absurd h (by simp [decodeSCWith])
  | str s => exact absurd h (by simp [decodeSCWith])
  | arr l => exact absurd h (by simp [decodeSCWith])

theorem dec_wf_TyF : ∀ (fuel : Nat) (j : Json) (t : Ty),
    decodeTyF fuel j = .ok t → WFTy t = true := by
  intro fuel
  induction fuel with
  | zero =>
    intro j t h
    exact absurd h (by simp [decodeTyF])
  | succ f ih =>
    intro j t h
    have hsc : ∀ (j0 : Json) (sc : StructContent),
        decodeSCWith (fun tj => decodeTyF f tj) j0 = .ok sc →
        WFSC sc = true :=
      dec_wf_SCWith _ (fun j0 t0 h0 => ih j0 t0 h0)
    cases j with
    | obj fields =>
      cases htag : getTag fields with
      | error e =>
        simp only [decodeTyF, bind, Except.bind, htag] at h
        exact absurd h (by simp)
      | ok tag =>
        cases hdoc : decodeOptField decodeString "doc" fields with
        | error e =>
          simp only [decodeTyF, bind, Except.bind, htag, hdoc] at h
          exact absurd h (by simp)
        | ok d =>
          simp only [decodeTyF, bind, Except.bind, htag, hdoc] at h
          split at h
          · cases h; rfl
          · cases h; rfl
          · cases h; rfl
          · cases h; rfl
          · cases h; rfl
          · cases h; rfl
          · cases h; rfl
          · cases h; rfl
          · cases h; rfl
          · -- optional
            cases hc : reqFieldD "content" fields with
            | error e =>
              simp only [hc] at h
              exact absurd h (by simp)
            | ok cv =>
              simp only [hc] at h
              cases hct : decodeTyF f cv with
              | error e =>
              simp only [hct] at h
              exact absurd h (by simp)
              | ok c =>
                simp only [hct] at h
                cases h
                simp only [WFTy]
                exact ih cv c hct
          · -- array
            cases hc : reqFieldD "content" fields with
            | error e =>
              simp only [hc] at h
              exact absurd h (by simp)
            | ok cv =>
              simp only [hc] at h
              cases hct : decodeTyF f cv with
              | error e =>
              simp only [hct] at h
              exact absurd h (by simp)
              | ok c =>
                simp only [hct] at h
                cases h
                simp only [WFTy]
                exact ih cv c hct
          · -- tuple
            cases hc : reqFieldD "content" fields with
            | error e =>
              simp only [hc] at h
              exact absurd h (by simp)
            | ok cv =>
              simp only [hc] at h
              cases cv with
              | arr items =>
                cases hl : decodeListWith
                    (fun sj => decodeSCWith (fun tj => decodeTyF f tj) sj)
                    items with
                | error e =>
              simp only [hl] at h
              exact absurd h (by simp)
                | ok l =>
                  simp only [hl] at h
                  cases h
                  simp only [WFTy]
                  exact WFSCList_of_all l
                    (decodeList_pred _ _ hsc items l hl)
              | null => exact absurd h (by simp)
              | bool b => exact absurd h (by simp)
              | num n => exact absurd h (by simp)
              | fnum r => exact absurd h (by simp)
              | str s => exact absurd h (by simp)
              | obj l => exact absurd h (by simp)
          · -- struct
            cases hc : reqFieldD "content" fields with
            | error e =>
              simp only [hc] at h
              exact absurd h (by simp)
            | ok cv =>
              simp only [hc] at h
              cases cv with
              | obj entries =>
                cases hm : decodeEntriesWith
                    (fun sj => decodeSCWith (fun tj => decodeTyF f tj) sj)
                    entries [] with
                | error e =>
              simp only [hm] at h
              exact absurd h (by simp)
                | ok m =>
                  simp only [hm] at h
                  cases h
                  simp only [WFTy, Bool.and_eq_true]
                  refine ⟨(keysNodupB_iff m).mpr
                    (decodeEntries_nodup _ entries [] m (by simp) hm), ?_⟩
                  exact WFSCMap_of_all m
                    (decodeEntries_pred _ _ hsc entries [] m (by simp) hm)
              | null => exact absurd h (by simp)
              | bool b => exact absurd h (by simp)
              | num n => exact absurd h (by simp)
              | fnum r => exact absurd h (by simp)
              | str s => exact absurd h (by simp)
              | arr l => exact absurd h (by simp)
          · -- enum
            cases hc : reqFieldD "content" fields with
            | error e =>
              simp only [hc] at h
              exact absurd h (by simp)
            | ok cv =>
              simp only [hc] at h
              cases cv with
              | obj entries =>
                cases hm : decodeEntriesWith
                    (fun sj => decodeSCWith (fun tj => decodeTyF f tj) sj)
                    entries [] with
                | error e =>
              simp only [hm] at h
              exact absurd h (by simp)
                | ok m =>
                  simp only [hm] at h
                  cases h
                  simp only [WFTy, Bool.and_eq_true]
                  refine ⟨(keysNodupB_iff m).mpr
                    (decodeEntries_nodup _ entries [] m (by simp) hm), ?_⟩
                  exact WFSCMap_of_all m
                    (decodeEntries_pred _ _ hsc entries [] m (by simp) hm)
              | null => exact absurd h (by simp)
              | bool b => exact absurd h (by simp)
              | num n => exact absurd h (by simp)
              | fnum r => exact absurd h (by simp)
              | str s => exact absurd h (by simp)
              | arr l => exact absurd h (by simp)
          · -- namedType
            cases hc : reqFieldD "content" fields with
            | error e =>
              simp only [hc] at h
              exact absurd h (by simp)
            | ok cv =>
              simp only [hc] at h
              cases hs : decodeString cv with
              | error e =>
              simp only [hs] at h
              exact absurd h (by simp)
              | ok s0 =>
                simp only [hs] at h
                cases h
                rfl
          · -- unknown variant
            exact absurd h (by simp)
    | null => exact absurd h (by simp [decodeTyF])
    | bool b => exact absurd h (by simp [decodeTyF])
    | num n => exact absurd h (by simp [decodeTyF])
    | fnum r => exact absurd h (by simp [decodeTyF])
    | str s => exact absurd h (by simp [decodeTyF])
    | arr l => exact absurd h (by simp [decodeTyF])

theorem dec_wf_IApiSpec : ∀ (j : Json) (s : IApiSpec),
    decodeIApiSpec j = .ok s → WFIApiSpec s = true := by
  intro j s h
  cases j with
  | null => exact absurd h (by simp [decodeIApiSpec])
  | bool b => exact absurd h (by simp [decodeIApiSpec])
  | num n => exact absurd h (by simp [decodeIApiSpec])
  | fnum r => exact absurd h (by simp [decodeIApiSpec])
  | str s0 => exact absurd h (by simp [decodeIApiSpec])
  | arr l => exact absurd h (by simp [decodeIApiSpec])
  | obj fields =>
    cases hi1 : reqFieldD "id" fields with
    | error e =>
      simp only [decodeIApiSpec, bind, Except.bind, hi1] at h
      exact absurd h (by simp)
    | ok vi =>
      cases hi2 : decodeNanoId vi with
      | error e =>
        simp only [decodeIApiSpec, bind, Except.bind, hi1, hi2] at h
        exact absurd h (by simp)
      | ok xi =>
        cases ht1 : reqFieldD "title" fields with
        | error e =>
          simp only [decodeIApiSpec, bind, Except.bind, hi1, hi2, ht1] at h
          exact absurd h (by simp)
        | ok vt =>
          cases ht2 : decodeString vt with
          | error e =>
            simp only [decodeIApiSpec, bind, Except.bind, hi1, hi2, ht1, ht2] at h
            exact absurd h (by simp)
          | ok xt =>
            cases hr1 : reqFieldD "revision" fields with
            | error e =>
              simp only [decodeIApiSpec, bind, Except.bind, hi1, hi2, ht1, ht2, hr1] at h
              exact absurd h (by simp)
            | ok vr =>
              cases hr2 : decodeU32 vr with
              | error e =>
                simp only [decodeIApiSpec, bind, Except.bind, hi1, hi2, ht1, ht2, hr1, hr2] at h
                exact absurd h (by simp)
              | ok xr =>
                cases he1 : reqFieldD "errorType" fields with
                | error e =>
                  simp only [decodeIApiSpec, bind, Except.bind, hi1, hi2, ht1, ht2, hr1, hr2, he1] at h
                  exact absurd h (by simp)
                | ok ve =>
                  cases he2 : decodeString ve with
                  | error e =>
                    simp only [decodeIApiSpec, bind, Except.bind, hi1, hi2, ht1, ht2, hr1, hr2, he1, he2] at h
                    exact absurd h (by simp)
                  | ok xe =>
                    cases hu1 : decodeOptField decodeBool "unique" fields with
                    | error e =>
                      simp only [decodeIApiSpec, bind, Except.bind, hi1, hi2, ht1, ht2, hr1, hr2, he1, he2, hu1] at h
                      exact absurd h (by simp)
                    | ok xu =>
                      cases hf1 : reqFieldD "features" fields with
                      | error e =>
                        simp only [decodeIApiSpec, bind, Except.bind, hi1, hi2, ht1, ht2, hr1, hr2, he1, he2, hu1, hf1] at h
                        exact absurd h (by simp)
                      | ok vf =>
                        cases hf2 : decodeIMap decodeFeature vf with
                        | error e =>
                          simp only [decodeIApiSpec, bind, Except.bind, hi1, hi2, ht1, ht2, hr1, hr2, he1, he2, hu1, hf1, hf2] at h
                          exact absurd h (by simp)
                        | ok xf =>
                          cases hg1 : reqFieldD "unstableFeatures" fields with
                          | error e =>
                            simp only [decodeIApiSpec, bind, Except.bind, hi1, hi2, ht1, ht2, hr1, hr2, he1, he2, hu1, hf1, hf2, hg1] at h
                            exact absurd h (by simp)
                          | ok vg =>
                            cases hg2 : decodeIMap decodeUnstableFeature vg with
                            | error e =>
                              simp only [decodeIApiSpec, bind, Except.bind, hi1, hi2, ht1, ht2, hr1, hr2, he1, he2, hu1, hf1, hf2, hg1, hg2] at h
                              exact absurd h (by simp)
                            | ok xg =>
                              cases hy1 : reqFieldD "types" fields with
                              | error e =>
                                simp only [decodeIApiSpec, bind, Except.bind, hi1, hi2, ht1, ht2, hr1, hr2, he1, he2, hu1, hf1, hf2, hg1, hg2, hy1] at h
                                exact absurd h (by simp)
                              | ok vy =>
                                cases hy2 : decodeIMap decodeTyTop vy with
                                | error e =>
                                  simp only [decodeIApiSpec, bind, Except.bind, hi1, hi2, ht1, ht2, hr1, hr2, he1, he2, hu1, hf1, hf2, hg1, hg2, hy1, hy2] at h
                                  exact absurd h (by simp)
                                | ok xy =>
                                  cases ho1 : reqFieldD "callsOut" fields with
                                  | error e =>
                                    simp only [decodeIApiSpec, bind, Except.bind, hi1, hi2, ht1, ht2, hr1, hr2, he1, he2, hu1, hf1, hf2, hg1, hg2, hy1, hy2, ho1] at h
                                    exact absurd h (by simp)
                                  | ok vo =>
                                    cases ho2 : decodeIMap decodeCall vo with
                                    | error e =>
                                      simp only [decodeIApiSpec, bind, Except.bind, hi1, hi2, ht1, ht2, hr1, hr2, he1, he2, hu1, hf1, hf2, hg1, hg2, hy1, hy2, ho1, ho2] at h
                                      exact absurd h (by simp)
                                    | ok xo =>
                                      cases hn1 : reqFieldD "callsIn" fields with
                                      | error e =>
                                        simp only [decodeIApiSpec, bind, Except.bind, hi1, hi2, ht1, ht2, hr1, hr2, he1, he2, hu1, hf1, hf2, hg1, hg2, hy1, hy2, ho1, ho2, hn1] at h
                                        exact absurd h (by simp)
                                      | ok vn =>
                                        cases hn2 : decodeIMap decodeCall vn with
                                        | error e =>
                                          simp only [decodeIApiSpec, bind, Except.bind, hi1, hi2, ht1, ht2, hr1, hr2, he1, he2, hu1, hf1, hf2, hg1, hg2, hy1, hy2, ho1, ho2, hn1, hn2] at h
                                          exact absurd h (by simp)
                                        | ok xn =>
                                          simp only [decodeIApiSpec, bind, Except.bind, hi1, hi2, ht1, ht2, hr1, hr2, he1, he2, hu1, hf1, hf2, hg1, hg2, hy1, hy2, ho1, ho2, hn1, hn2, Except.ok.injEq] at h
                                          rw [← h]
                                          simp only [WFIApiSpec, Bool.and_eq_true, decide_eq_true_eq, List.all_eq_true]
                                          refine ⟨⟨⟨⟨⟨⟨⟨dec_wf_U32 vr xr hr2, ?_⟩, ?_⟩, ?_⟩, ?_⟩, ?_⟩, ?_⟩, ?_⟩
                                          · exact dec_wf_IMap_nodup decodeFeature vf xf hf2
                                          · intro kv hkv
                                            exact dec_wf_IMap_pred decodeFeature (fun a => WFFeature a = true)
                                              (fun j0 a0 h0 => dec_wf_Feature j0 a0 h0) vf xf hf2 kv hkv
                                          · exact dec_wf_IMap_nodup decodeUnstableFeature vg xg hg2
                                          · exact dec_wf_IMap_nodup decodeTyTop vy xy hy2
                                          · intro kv hkv
                                            exact dec_wf_IMap_pred decodeTyTop (fun a => WFTy a = true)
                                              (fun j0 a0 h0 => dec_wf_TyF _ j0 a0 h0) vy xy hy2 kv hkv
                                          · exact dec_wf_IMap_nodup decodeCall vo xo ho2
                                          · exact dec_wf_IMap_nodup decodeCall vn xn hn2

theorem dec_wf_IApiSpecDoc : ∀ (j : Json) (d : IApiSpecDoc),
    decodeIApiSpecDoc j = .ok d → WFIApiSpecDoc d = true := by
  intro j d h
  cases j with
  | null => exact absurd h (by simp [decodeIApiSpecDoc])
  | bool b => exact absurd h (by simp [decodeIApiSpecDoc])
  | num n => exact absurd h (by simp [decodeIApiSpecDoc])
  | fnum r => exact absurd h (by simp [decodeIApiSpecDoc])
  | str s0 => exact absurd h (by simp [decodeIApiSpecDoc])
  | arr l => exact absurd h (by simp [decodeIApiSpecDoc])
  | obj fields =>
    cases h1 : reqFieldD "inversionApiSpec" fields with
    | error e =>
      simp only [decodeIApiSpecDoc, bind, Except.bind, h1] at h
      exact absurd h (by simp)
    | ok v =>
      cases h2 : decodeIApiSpec v with
      | error e =>
        simp only [decodeIApiSpecDoc, bind, Except.bind, h1, h2] at h
        exact absurd h (by simp)
      | ok sp =>
        simp only [decodeIApiSpecDoc, bind, Except.bind, h1, h2,
          Except.ok.injEq] at h
        rw [← h]
        exact dec_wf_IApiSpec v sp h2

/-! ## Optional fields: absence decodes to `none` -/

theorem decodeOptField_absent {A : Type} (dec : Json → Except ErrCode A)
    {name : String} {fields : List (String × Json)}
    (h : name ∉ fields.map Prod.fst) :
    decodeOptField dec name fields = .ok none := by
  simp only [decodeOptField, getFieldD_not_mem h]

theorem decodeFeature_doc_dep :
    ∀ (fields : List (String × Json)) (f : Feature),
      decodeFeature (.obj fields) = .ok f →
      decodeOptField decodeString "doc" fields = .ok f.doc ∧
      decodeOptField decodeBool "deprecated" fields = .ok f.deprecated := by
  intro fields f h
  cases hd : decodeOptField decodeString "doc" fields with
  | error e =>
    simp only [decodeFeature, bind, Except.bind, hd] at h
    exact absurd h (by simp)
  | ok d0 =>
    cases hr : reqFieldD "stablizedRevision" fields with
    | error e =>
      simp only [decodeFeature, bind, Except.bind, hd, hr] at h
      exact absurd h (by simp)
    | ok v =>
      cases hu : decodeU32 v with
      | error e =>
        simp only [decodeFeature, bind, Except.bind, hd, hr, hu] at h
        exact absurd h (by simp)
      | ok sr0 =>
        cases hdep : decodeOptField decodeBool "deprecated" fields with
        | error e =>
          simp only [decodeFeature, bind, Except.bind, hd, hr, hu, hdep] at h
          exact absurd h (by simp)
        | ok dep0 =>
          simp only [decodeFeature, bind, Except.bind, hd, hr, hu, hdep,
            Except.ok.injEq] at h
          rw [← h]
          exact ⟨rfl, rfl⟩

theorem decodeUnstableFeature_doc :
    ∀ (fields : List (String × Json)) (f : UnstableFeature),
      decodeUnstableFeature (.obj fields) = .ok f →
      decodeOptField decodeString "doc" fields = .ok f.doc := by
  intro fields f h
  cases hd : decodeOptField decodeString "doc" fields with
  | error e =>
    simp only [decodeUnstableFeature, bind, Except.bind, hd] at h
    exact absurd h (by simp)
  | ok d0 =>
    simp only [decodeUnstableFeature, bind, Except.bind, hd,
      Except.ok.injEq] at h
    rw [← h]

theorem decodeCall_doc :
    ∀ (fields : List (String × Json)) (c : Call),
      decodeCall (.obj fields) = .ok c →
      decodeOptField decodeString "doc" fields = .ok c.doc := by
  intro fields c h
  cases hd : decodeOptField decodeString "doc" fields with
  | error e =>
    simp only [decodeCall, bind, Except.bind, hd] at h
    exact absurd h (by simp)
  | ok d0 =>
    cases hf : reqFieldD "feature" fields with
    | error e =>
      simp only [decodeCall, bind, Except.bind, hd, hf] at h
      exact absurd h (by simp)
    | ok vf =>
      cases hf2 : decodeString vf with
      | error e =>
        simp only [decodeCall, bind, Except.bind, hd, hf, hf2] at h
        exact absurd h (by simp)
      | ok xf =>
        cases hi : reqFieldD "input" fields with
        | error e =>
          simp only [decodeCall, bind, Except.bind, hd, hf, hf2, hi] at h
          exact absurd h (by simp)
        | ok vi =>
          cases hi2 : decodeString vi with
          | error e =>
            simp only [decodeCall, bind, Except.bind, hd, hf, hf2, hi, hi2] at h
            exact absurd h (by simp)
          | ok xi =>
            cases ho : reqFieldD "output" fields with
            | error e =>
              simp only [decodeCall, bind, Except.bind, hd, hf, hf2, hi, hi2,
                ho] at h
              exact absurd h (by simp)
            | ok vo =>
              cases ho2 : decodeString vo with
              | error e =>
                simp only [decodeCall, bind, Except.bind, hd, hf, hf2, hi,
                  hi2, ho, ho2] at h
                exact absurd h (by simp)
              | ok xo =>
                simp only [decodeCall, bind, Except.bind, hd, hf, hf2, hi,
                  hi2, ho, ho2, Except.ok.injEq] at h
                rw [← h]

theorem decodeTyF_doc : ∀ (fuel : Nat) (fields : List (String × Json)) (t : Ty),
    decodeTyF fuel (.obj fields) = .ok t →
    decodeOptField decodeString "doc" fields = .ok t.doc := by
  intro fuel fields t h
  cases fuel with
  | zero => exact absurd h (by simp [decodeTyF])
  | succ f =>
    cases htag : getTag fields with
    | error e =>
      simp only [decodeTyF, bind, Except.bind, htag] at h
      exact absurd h (by simp)
    | ok tag =>
      cases hdoc : decodeOptField decodeString "doc" fields with
      | error e =>
        simp only [decodeTyF, bind, Except.bind, htag, hdoc] at h
        exact absurd h (by simp)
      | ok d =>
        simp only [decodeTyF, bind, Except.bind, htag, hdoc] at h
        split at h
        · cases h; rfl
        · cases h; rfl
        · cases h; rfl
        · cases h; rfl
        · cases h; rfl
        · cases h; rfl
        · cases h; rfl
        · cases h; rfl
        · cases h; rfl
        · cases hc : reqFieldD "content" fields with
          | error e =>
            simp only [hc] at h
            exact absurd h (by simp)
          | ok cv =>
            simp only [hc] at h
            cases hct : decodeTyF f cv with
            | error e =>
              simp only [hct] at h
              exact absurd h (by simp)
            | ok c =>
              simp only [hct] at h
              cases h; rfl
        · cases hc : reqFieldD "content" fields with
          | error e =>
            simp only [hc] at h
            exact absurd h (by simp)
          | ok cv =>
            simp only [hc] at h
            cases hct : decodeTyF f cv with
            | error e =>
              simp only [hct] at h
              exact absurd h (by simp)
            | ok c =>
              simp only [hct] at h
              cases h; rfl
        · cases hc : reqFieldD "content" fields with
          | error e =>
            simp only [hc] at h
            exact absurd h (by simp)
          | ok cv =>
            simp only [hc] at h
            cases cv with
            | arr items =>
              cases hl : decodeListWith
                  (fun sj => decodeSCWith (fun tj => decodeTyF f tj) sj)
                  items with
              | error e =>
                simp only [hl] at h
                exact absurd h (by simp)
              | ok l =>
                simp only [hl] at h
                cases h; rfl
            | null => exact absurd h (by simp)
            | bool b => exact absurd h (by simp)
            | num n => exact absurd h (by simp)
            | fnum r => exact absurd h (by simp)
            | str s => exact absurd h (by simp)
            | obj l => exact absurd h (by simp)
        · cases hc : reqFieldD "content" fields with
          | error e =>
            simp only [hc] at h
            exact absurd h (by simp)
          | ok cv =>
            simp only [hc] at h
            cases cv with
            | obj entries =>
              cases hm : decodeEntriesWith
                  (fun sj => decodeSCWith (fun tj => decodeTyF f tj) sj)
                  entries [] with
              | error e =>
                simp only [hm] at h
                exact absurd h (by simp)
              | ok m =>
                simp only [hm] at h
                cases h; rfl
            | null => exact absurd h (by simp)
            | bool b => exact absurd h (by simp)
            | num n => exact absurd h (by simp)
            | fnum r => exact absurd h (by simp)
            | str s => exact absurd h (by simp)
            | arr l => exact absurd h (by simp)
        · cases hc : reqFieldD "content" fields with
          | error e =>
            simp only [hc] at h
            exact absurd h (by simp)
          | ok cv =>
            simp only [hc] at h
            cases cv with
            | obj entries =>
              cases hm : decodeEntriesWith
                  (fun sj => decodeSCWith (fun tj => decodeTyF f tj) sj)
                  entries [] with
              | error e =>
                simp only [hm] at h
                exact absurd h (by simp)
              | ok m =>
                simp only [hm] at h
                cases h; rfl
            | null => exact absurd h (by simp)
            | bool b => exact absurd h (by simp)
            | num n => exact absurd h (by simp)
            | fnum r => exact absurd h (by simp)
            | str s => exact absurd h (by simp)
            | arr l => exact absurd h (by simp)
        · cases hc : reqFieldD "content" fields with
          | error e =>
            simp only [hc] at h
            exact absurd h (by simp)
          | ok cv =>
            simp only [hc] at h
            cases hs : decodeString cv with
            | error e =>
              simp only [hs] at h
              exact absurd h (by simp)
            | ok s0 =>
              simp only [hs] at h
              cases h; rfl
        · exact absurd h (by simp)

theorem decodeIApiSpec_unique :
    ∀ (fields : List (String × Json)) (s : IApiSpec),
      decodeIApiSpec (.obj fields) = .ok s →
      decodeOptField decodeBool "unique" fields = .ok s.unique := by
  intro fields s h
  cases hi1 : reqFieldD "id" fields with
  | error e =>
    simp only [decodeIApiSpec, bind, Except.bind, hi1] at h
    exact absurd h (by simp)
  | ok vi =>
    cases hi2 : decodeNanoId vi with
    | error e =>
      simp only [decodeIApiSpec, bind, Except.bind, hi1, hi2] at h
      exact absurd h (by simp)
    | ok xi =>
      cases ht1 : reqFieldD "title" fields with
      | error e =>
        simp only [decodeIApiSpec, bind, Except.bind, hi1, hi2, ht1] at h
        exact absurd h (by simp)
      | ok vt =>
        cases ht2 : decodeString vt with
        | error e =>
          simp only [decodeIApiSpec, bind, Except.bind, hi1, hi2, ht1, ht2] at h
          exact absurd h (by simp)
        | ok xt =>
          cases hr1 : reqFieldD "revision" fields with
          | error e =>
            simp only [decodeIApiSpec, bind, Except.bind, hi1, hi2, ht1, ht2, hr1] at h
            exact absurd h (by simp)
          | ok vr =>
            cases hr2 : decodeU32 vr with
            | error e =>
              simp only [decodeIApiSpec, bind, Except.bind, hi1, hi2, ht1, ht2, hr1, hr2] at h
              exact absurd h (by simp)
            | ok xr =>
              cases he1 : reqFieldD "errorType" fields with
              | error e =>
                simp only [decodeIApiSpec, bind, Except.bind, hi1, hi2, ht1, ht2, hr1, hr2, he1] at h
                exact absurd h (by simp)
              | ok ve =>
                cases he2 : decodeString ve with
                | error e =>
                  simp only [decodeIApiSpec, bind, Except.bind, hi1, hi2, ht1, ht2, hr1, hr2, he1, he2] at h
                  exact absurd h (by simp)
                | ok xe =>
                  cases hu1 : decodeOptField decodeBool "unique" fields with
                  | error e =>
                    simp only [decodeIApiSpec, bind, Except.bind, hi1, hi2, ht1, ht2, hr1, hr2, he1, he2, hu1] at h
                    exact absurd h (by simp)
                  | ok xu =>
                    cases hf1 : reqFieldD "features" fields with
                    | error e =>
                      simp only [decodeIApiSpec, bind, Except.bind, hi1, hi2, ht1, ht2, hr1, hr2, he1, he2, hu1, hf1] at h
                      exact absurd h (by simp)
                    | ok vf =>
                      cases hf2 : decodeIMap decodeFeature vf with
                      | error e =>
                        simp only [decodeIApiSpec, bind, Except.bind, hi1, hi2, ht1, ht2, hr1, hr2, he1, he2, hu1, hf1, hf2] at h
                        exact absurd h (by simp)
                      | ok xf =>
                        cases hg1 : reqFieldD "unstableFeatures" fields with
                        | error e =>
                          simp only [decodeIApiSpec, bind, Except.bind, hi1, hi2, ht1, ht2, hr1, hr2, he1, he2, hu1, hf1, hf2, hg1] at h
                          exact absurd h (by simp)
                        | ok vg =>
                          cases hg2 : decodeIMap decodeUnstableFeature vg with
                          | error e =>
                            simp only [decodeIApiSpec, bind, Except.bind, hi1, hi2, ht1, ht2, hr1, hr2, he1, he2, hu1, hf1, hf2, hg1, hg2] at h
                            exact absurd h (by simp)
                          | ok xg =>
                            cases hy1 : reqFieldD "types" fields with
                            | error e =>
                              simp only [decodeIApiSpec, bind, Except.bind, hi1, hi2, ht1, ht2, hr1, hr2, he1, he2, hu1, hf1, hf2, hg1, hg2, hy1] at h
                              exact absurd h (by simp)
                            | ok vy =>
                              cases hy2 : decodeIMap decodeTyTop vy with
                              | error e =>
                                simp only [decodeIApiSpec, bind, Except.bind, hi1, hi2, ht1, ht2, hr1, hr2, he1, he2, hu1, hf1, hf2, hg1, hg2, hy1, hy2] at h
                                exact absurd h (by simp)
                              | ok xy =>
                                cases ho1 : reqFieldD "callsOut" fields with
                                | error e =>
                                  simp only [decodeIApiSpec, bind, Except.bind, hi1, hi2, ht1, ht2, hr1, hr2, he1, he2, hu1, hf1, hf2, hg1, hg2, hy1, hy2, ho1] at h
                                  exact absurd h (by simp)
                                | ok vo =>
                                  cases ho2 : decodeIMap decodeCall vo with
                                  | error e =>
                                    simp only [decodeIApiSpec, bind, Except.bind, hi1, hi2, ht1, ht2, hr1, hr2, he1, he2, hu1, hf1, hf2, hg1, hg2, hy1, hy2, ho1, ho2] at h
                                    exact absurd h (by simp)
                                  | ok xo =>
                                    cases hn1 : reqFieldD "callsIn" fields with
                                    | error e =>
                                      simp only [decodeIApiSpec, bind, Except.bind, hi1, hi2, ht1, ht2, hr1, hr2, he1, he2, hu1, hf1, hf2, hg1, hg2, hy1, hy2, ho1, ho2, hn1] at h
                                      exact absurd h (by simp)
                                    | ok vn =>
                                      cases hn2 : decodeIMap decodeCall vn with
                                      | error e =>
                                        simp only [decodeIApiSpec, bind, Except.bind, hi1, hi2, ht1, ht2, hr1, hr2, he1, he2, hu1, hf1, hf2, hg1, hg2, hy1, hy2, ho1, ho2, hn1, hn2] at h
                                        exact absurd h (by simp)
                                      | ok xn =>
                                        simp only [decodeIApiSpec, bind, Except.bind, hi1, hi2, ht1, ht2, hr1, hr2, he1, he2, hu1, hf1, hf2, hg1, hg2, hy1, hy2, ho1, ho2, hn1, hn2, Except.ok.injEq] at h
                                        rw [← h]

/-! ## Keys of encoded objects -/

theorem optStr_keys (d : Option String) :
    ∀ kv ∈ encodeOptStr "doc" d, kv.1 = "doc" := by
  cases d <;> simp [encodeOptStr]

theorem content_keys (d : Option String) (x : Json) :
    ∀ kv ∈ encodeOptStr "doc" d ++ [("content", x)],
      kv.1 = "doc" ∨ kv.1 = "content" := by
  intro kv hkv
  rcases List.mem_append.mp hkv with h | h
  · exact Or.inl (optStr_keys d kv h)
  · rw [List.mem_singleton.mp h]
    exact Or.inr rfl

theorem objKeysOf_encodeIMap {A : Type} (f : A → Json)
    (m : List (String × A)) :
    objKeysOf (encodeIMap f m) = m.map Prod.fst := by
  induction m with
  | nil => rfl
  | cons kv rest ih =>
    simp only [encodeIMap, objKeysOf, List.map_cons] at ih ⊢
    rw [ih]

theorem decodeIMap_keys {A : Type} (dec : Json → Except ErrCode A)
    (entries : List (String × Json)) (m : List (String × A))
    (hnd : keysNodupB entries = true)
    (h : decodeIMap dec (.obj entries) = .ok m) :
    m.map Prod.fst = entries.map Prod.fst := by
  simp only [decodeIMap] at h
  have := decodeEntries_keys dec entries [] m
    (by simpa using (keysNodupB_iff entries).mp hnd) h
  simpa using this

/-! ## Claim theorems -/

set_option maxRecDepth 100000

/-- C1: decode/encode round trip.  (1) Any `IApiSpecDoc` obtained by a
successful decode decodes back to itself from its own encoding.  (2) For
any document value the Rust types can hold (well-formed: `u32` fields in
range and unique `IndexMap` keys, which Rust enforces by construction),
the codec reproduces its encoding exactly after a decode/encode cycle:
`encode (decode (encode d)) = encode d` — document equality modulo
pretty-printing whitespace is equality of the JSON value. -/
theorem c1_round_trip :
    (∀ (j : Json) (d : IApiSpecDoc), decodeIApiSpecDoc j = .ok d →
      decodeIApiSpecDoc (encodeIApiSpecDoc d) = .ok d) ∧
    (∀ d : IApiSpecDoc, WFIApiSpecDoc d = true →
      ∃ d', decodeIApiSpecDoc (encodeIApiSpecDoc d) = .ok d' ∧
        encodeIApiSpecDoc d' = encodeIApiSpecDoc d) := by
  constructor
  · intro j d h
    exact dec_enc_IApiSpecDoc d (dec_wf_IApiSpecDoc j d h)
  · intro d h
    exact ⟨d, dec_enc_IApiSpecDoc d h, rfl⟩

/-- Witness for C1 at the concrete document `exDoc`. -/
theorem c1_round_trip_witness :
    decodeIApiSpecDoc (encodeIApiSpecDoc exDoc) = .ok exDoc ∧
    (∃ d', decodeIApiSpecDoc (encodeIApiSpecDoc exDoc) = .ok d' ∧
      encodeIApiSpecDoc d' = encodeIApiSpecDoc exDoc) :=
  ⟨c1_round_trip.1 (encodeIApiSpecDoc exDoc) exDoc (by rfl),
   c1_round_trip.2 exDoc (by rfl)⟩

/-- C2 counterexample: a decode failure from malformed text and one from
an unrecognized `type` discriminant are returned with the SAME error kind
(`Other`), not distinct kinds — no `MalformedInput`/`UnknownVariant`/
`SchemaMismatch` kinds exist in the code. -/
theorem c2_counterexample :
    IApiSpecDoc.parse inputMalformed
      = .error ⟨.other, .expectedSomeValue⟩ ∧
    IApiSpecDoc.parse inputUnknownVariant
      = .error ⟨.other, unknownVariantErr "float128"⟩ ∧
    (⟨.other, .expectedSomeValue⟩ : IoError)
      ≠ ⟨.other, unknownVariantErr "float128"⟩ ∧
    (⟨.other, ErrCode.expectedSomeValue⟩ : IoError).kind
      = (⟨.other, unknownVariantErr "float128"⟩ : IoError).kind :=
  ⟨rfl, rfl, by decide, rfl⟩

/-- C2 (amended): the four failure causes each fail decode and the
returned error VALUES are pairwise distinct — malformed input carries a
syntax-category parse code while the other three carry distinct data-error
messages — but all four are reported with the single io error kind
`Other`, not with distinct named kinds. -/
theorem c2_error_reporting :
    IApiSpecDoc.parse inputMalformed
      = .error ⟨.other, .expectedSomeValue⟩ ∧
    IApiSpecDoc.parse inputUnknownVariant
      = .error ⟨.other, unknownVariantErr "float128"⟩ ∧
    IApiSpecDoc.parse inputMissingField
      = .error ⟨.other, missingField "id"⟩ ∧
    IApiSpecDoc.parse inputMismatch
      = .error ⟨.other, invalidType (.num 5) "struct IApiSpec"⟩ ∧
    ErrCode.expectedSomeValue.classify = .malformed ∧
    (unknownVariantErr "float128").classify = .data ∧
    (missingField "id").classify = .data ∧
    (invalidType (.num 5) "struct IApiSpec").classify = .data ∧
    ErrCode.expectedSomeValue ≠ unknownVariantErr "float128" ∧
    ErrCode.expectedSomeValue ≠ missingField "id" ∧
    ErrCode.expectedSomeValue ≠ invalidType (.num 5) "struct IApiSpec" ∧
    unknownVariantErr "float128" ≠ missingField "id" ∧
    unknownVariantErr "float128" ≠ invalidType (.num 5) "struct IApiSpec" ∧
    missingField "id" ≠ invalidType (.num 5) "struct IApiSpec" :=
  ⟨rfl, rfl, rfl, rfl, rfl, rfl, rfl, rfl,
   by decide, by decide, by decide, by decide, by decide, by decide⟩

/-- C3 counterexample: `StructContent` stores no doc string.  A `doc` key
present in the input is silently discarded by decode, and re-encoding
emits only `index` and `content`. -/
theorem c3_counterexample :
    decodeSCWith decodeTyTop (Json.obj
      [("doc", Json.str "documentation"), ("index", Json.num 0),
       ("content", Json.obj [("type", Json.str "null")])])
      = .ok (.mk 0 (.Null none)) ∧
    encodeStructContent (.mk 0 (.Null none))
      = Json.obj [("index", Json.num 0),
          ("content", Json.obj [("type", Json.str "null")])] ∧
    "doc" ∉ objKeysOf (encodeStructContent (.mk 0 (.Null none))) :=
  ⟨rfl, rfl, by decide⟩

/-- C3 (amended): every `StructContent` record consists of exactly two
parts — a non-negative integer `index` and one owned nested `Type` — and
carries no documentation string. -/
theorem c3_struct_content :
    ∀ sc : StructContent,
      encodeStructContent sc = Json.obj
        [("index", Json.num (Int.ofNat sc.index)),
         ("content", encodeTy sc.content)] ∧
      objKeysOf (encodeStructContent sc) = ["index", "content"] ∧
      ∃ (i : Nat) (c : Ty), sc = .mk i c := by
  intro sc
  obtain ⟨i, c⟩ := sc
  exact ⟨rfl, rfl, i, c, rfl⟩

/-- C8: decoding a `Type` object with the unrecognized discriminant
`float128` fails with serde's unknown-variant error (and the whole
document parse returns it as a typed error value, kind `Other` — it never
panics: the decoder is a total function). -/
theorem c8_unknown_variant :
    decodeTyTop (Json.obj [("type", Json.str "float128")])
      = .error (unknownVariantErr "float128") ∧
    unknownVariantErr "float128" = .message ("unknown variant `float128`, "
      ++ "expected one of `null`, `bool`, `i32`, `u32`, `i64`, `u64`, "
      ++ "`f64`, `bytes`, `string`, `optional`, `array`, `tuple`, "
      ++ "`struct`, `enum`, `namedType`") ∧
    IApiSpecDoc.parse inputUnknownVariant
      = .error ⟨.other, unknownVariantErr "float128"⟩ :=
  ⟨rfl, by decide, rfl⟩

/-- C9: `IApiSpecDoc::parse` is total: for every byte input it returns
either a fully decoded document or a typed error of kind `Other`, and it
propagates exactly the underlying parse result — no failure is recovered
or swallowed internally. -/
theorem c9_total_typed_errors :
    ∀ data : List Char,
      (∃ d, IApiSpecDoc.parse data = .ok d ∧
        fromSliceIApiSpecDoc data = .ok d) ∨
      (∃ e, IApiSpecDoc.parse data = .error ⟨IoErrorKind.other, e⟩ ∧
        fromSliceIApiSpecDoc data = .error e) := by
  intro data
  cases h : fromSliceIApiSpecDoc data with
  | ok d => exact Or.inl ⟨d, by simp [IApiSpecDoc.parse, h], rfl⟩
  | error e => exact Or.inr ⟨e, by simp [IApiSpecDoc.parse, h], rfl⟩

/-- C10: unknown extra keys (at the document, spec, feature,
struct-content and call levels) are silently discarded: the input decodes
successfully to a model without them, and consequently re-encoding does
not reproduce the original document. -/
theorem c10_unknown_fields :
    IApiSpecDoc.parse inputExtraKeys = .ok extraKeysDoc ∧
    parseJsonText inputExtraKeys ≠ .ok (encodeIApiSpecDoc extraKeysDoc) := by
  refine ⟨rfl, ?_⟩
  intro h
  have h2 := congrArg
    (fun r => match r with
      | Except.ok j => objKeysOf j
      | Except.error _ => ([] : List String)) h
  exact absurd h2 (by decide)

/-- C4: naming in the encoded form.  The wire keys used by the encoder
are exactly the declared Rust field names rewritten by serde's camelCase
rule (`error_type` → `errorType`, `stablized_revision` →
`stablizedRevision`, …); every `Type` value is encoded as a single object
whose first field is the discriminant `"type"` holding the camelCased
variant name, with the variant's remaining fields (`doc`, `content`)
flattened beside it rather than nested under a payload key. -/
theorem c4_naming :
    camelOfSnake "error_type" = "errorType" ∧
    camelOfSnake "stablized_revision" = "stablizedRevision" ∧
    camelOfSnake "inversion_api_spec" = "inversionApiSpec" ∧
    camelOfSnake "unstable_features" = "unstableFeatures" ∧
    camelOfSnake "calls_out" = "callsOut" ∧
    camelOfSnake "calls_in" = "callsIn" ∧
    (∀ d : IApiSpecDoc, objKeysOf (encodeIApiSpecDoc d)
      = [camelOfSnake "inversion_api_spec"]) ∧
    (∀ s : IApiSpec, objKeysOf (encodeIApiSpec s)
      = [camelOfSnake "id", camelOfSnake "title", camelOfSnake "revision",
         camelOfSnake "error_type"]
        ++ (match s.unique with
            | none => []
            | some _ => [camelOfSnake "unique"])
        ++ [camelOfSnake "features", camelOfSnake "unstable_features",
            camelOfSnake "types", camelOfSnake "calls_out",
            camelOfSnake "calls_in"]) ∧
    (∀ f : Feature, objKeysOf (encodeFeature f)
      = (match f.doc with | none => [] | some _ => [camelOfSnake "doc"])
        ++ [camelOfSnake "stablized_revision"]
        ++ (match f.deprecated with
            | none => []
            | some _ => [camelOfSnake "deprecated"])) ∧
    (camelOfPascal "Null" = "null" ∧ camelOfPascal "I32" = "i32" ∧
     camelOfPascal "NamedType" = "namedType") ∧
    (∀ t : Ty, ∃ rest, encodeTy t
      = Json.obj (("type", Json.str t.tagName) :: rest) ∧
      ∀ kv ∈ rest, kv.1 = "doc" ∨ kv.1 = "content") ∧
    (∀ t : Ty, t.tagName ∈ tyVariants) := by
  refine ⟨rfl, rfl, rfl, rfl, rfl, rfl, fun d => rfl, ?_, ?_,
    ⟨rfl, rfl, rfl⟩, ?_, ?_⟩
  · intro s
    cases hu : s.unique <;>
      simp only [encodeIApiSpec, encodeOptBool, hu, objKeysOf,
        List.map_append, List.map_cons, List.map_nil, List.append_nil,
        List.nil_append, List.cons_append] <;>
      rfl
  · intro f
    cases hd : f.doc <;> cases hdep : f.deprecated <;>
      simp only [encodeFeature, encodeOptStr, encodeOptBool, hd, hdep,
        objKeysOf, List.map_append, List.map_cons, List.map_nil,
        List.append_nil, List.nil_append, List.cons_append] <;>
      rfl
  · intro t
    cases t with
    | Null d => exact ⟨_, rfl, fun kv hkv => Or.inl (optStr_keys d kv hkv)⟩
    | Bool d => exact ⟨_, rfl, fun kv hkv => Or.inl (optStr_keys d kv hkv)⟩
    | I32 d => exact ⟨_, rfl, fun kv hkv => Or.inl (optStr_keys d kv hkv)⟩
    | U32 d => exact ⟨_, rfl, fun kv hkv => Or.inl (optStr_keys d kv hkv)⟩
    | I64 d => exact ⟨_, rfl, fun kv hkv => Or.inl (optStr_keys d kv hkv)⟩
    | U64 d => exact ⟨_, rfl, fun kv hkv => Or.inl (optStr_keys d kv hkv)⟩
    | F64 d => exact ⟨_, rfl, fun kv hkv => Or.inl (optStr_keys d kv hkv)⟩
    | Bytes d => exact ⟨_, rfl, fun kv hkv => Or.inl (optStr_keys d kv hkv)⟩
    | String d => exact ⟨_, rfl, fun kv hkv => Or.inl (optStr_keys d kv hkv)⟩
    | Optional d c => exact ⟨_, rfl, content_keys d (encodeTy c)⟩
    | Array d c => exact ⟨_, rfl, content_keys d (encodeTy c)⟩
    | Tuple d l => exact ⟨_, rfl, content_keys d (Json.arr (encodeSCList l))⟩
    | Struct d l => exact ⟨_, rfl, content_keys d (Json.obj (encodeSCMap l))⟩
    | Enum d l => exact ⟨_, rfl, content_keys d (Json.obj (encodeSCMap l))⟩
    | NamedType d s => exact ⟨_, rfl, content_keys d (Json.str s)⟩
  · intro t
    cases t with
    | Null d => exact show "null" ∈ tyVariants by decide
    | Bool d => exact show "bool" ∈ tyVariants by decide
    | I32 d => exact show "i32" ∈ tyVariants by decide
    | U32 d => exact show "u32" ∈ tyVariants by decide
    | I64 d => exact show "i64" ∈ tyVariants by decide
    | U64 d => exact show "u64" ∈ tyVariants by decide
    | F64 d => exact show "f64" ∈ tyVariants by decide
    | Bytes d => exact show "bytes" ∈ tyVariants by decide
    | String d => exact show "string" ∈ tyVariants by decide
    | Optional d c => exact show "optional" ∈ tyVariants by decide
    | Array d c => exact show "array" ∈ tyVariants by decide
    | Tuple d l => exact show "tuple" ∈ tyVariants by decide
    | Struct d l => exact show "struct" ∈ tyVariants by decide
    | Enum d l => exact show "enum" ∈ tyVariants by decide
    | NamedType d s0 => exact show "namedType" ∈ tyVariants by decide

/-- C6: insertion order of map entries is preserved.  Encoding an
`IndexMap` emits entries in the model's order; decoding a JSON object
with (distinct) keys produces a map whose key order is exactly the
document order — not alphabetical or hash order.  These generic facts
cover every map field (`features`, `unstable_features`, `types`,
`calls_out`, `calls_in`, and `Struct`/`Enum` content). -/
theorem c6_order_preservation :
    (∀ {A : Type} (f : A → Json) (m : List (String × A)),
      objKeysOf (encodeIMap f m) = m.map Prod.fst) ∧
    (∀ {A : Type} (dec : Json → Except ErrCode A)
      (entries : List (String × Json)) (m : List (String × A)),
      keysNodupB entries = true → decodeIMap dec (.obj entries) = .ok m →
      m.map Prod.fst = entries.map Prod.fst) := by
  constructor
  · intro A f m
    exact objKeysOf_encodeIMap f m
  · intro A dec entries m hnd h
    exact decodeIMap_keys dec entries m hnd h

/-- Witness for C6: a `types` map decoded with keys `[a, b, c]` keeps the
keys in the order `[a, b, c]`. -/
theorem c6_order_preservation_witness :
    ([("a", Ty.Null none), ("b", Ty.Bool none), ("c", Ty.I32 none)]
        : List (String × Ty)).map Prod.fst
      = ([("a", Json.obj [("type", Json.str "null")]),
          ("b", Json.obj [("type", Json.str "bool")]),
          ("c", Json.obj [("type", Json.str "i32")])]
            : List (String × Json)).map Prod.fst :=
  c6_order_preservation.2 decodeTyTop
    [("a", Json.obj [("type", Json.str "null")]),
     ("b", Json.obj [("type", Json.str "bool")]),
     ("c", Json.obj [("type", Json.str "i32")])]
    [("a", Ty.Null none), ("b", Ty.Bool none), ("c", Ty.I32 none)]
    (by decide) (by rfl)

/-- C7: `Type` is a closed sum with exactly the fifteen variants, each
carrying an optional doc string, and `doc()` returns exactly the stored
doc of each variant. -/
theorem c7_type_variants :
    (∀ d, (Ty.Null d).doc = d) ∧ (∀ d, (Ty.Bool d).doc = d) ∧
    (∀ d, (Ty.I32 d).doc = d) ∧ (∀ d, (Ty.U32 d).doc = d) ∧
    (∀ d, (Ty.I64 d).doc = d) ∧ (∀ d, (Ty.U64 d).doc = d) ∧
    (∀ d, (Ty.F64 d).doc = d) ∧ (∀ d, (Ty.Bytes d).doc = d) ∧
    (∀ d, (Ty.String d).doc = d) ∧
    (∀ d c, (Ty.Optional d c).doc = d) ∧
    (∀ d c, (Ty.Array d c).doc = d) ∧
    (∀ d l, (Ty.Tuple d l).doc = d) ∧
    (∀ d l, (Ty.Struct d l).doc = d) ∧
    (∀ d l, (Ty.Enum d l).doc = d) ∧
    (∀ d s, (Ty.NamedType d s).doc = d) ∧
    (∀ t : Ty, (∃ d, t = .Null d) ∨ (∃ d, t = .Bool d) ∨
      (∃ d, t = .I32 d) ∨ (∃ d, t = .U32 d) ∨ (∃ d, t = .I64 d) ∨
      (∃ d, t = .U64 d) ∨ (∃ d, t = .F64 d) ∨ (∃ d, t = .Bytes d) ∨
      (∃ d, t = .String d) ∨ (∃ d c, t = .Optional d c) ∨
      (∃ d c, t = .Array d c) ∨ (∃ d l, t = .Tuple d l) ∨
      (∃ d l, t = .Struct d l) ∨ (∃ d l, t = .Enum d l) ∨
      (∃ d s, t = .NamedType d s)) := by
  refine ⟨fun d => rfl, fun d => rfl, fun d => rfl, fun d => rfl,
    fun d => rfl, fun d => rfl, fun d => rfl, fun d => rfl, fun d => rfl,
    fun d c => rfl, fun d c => rfl, fun d l => rfl, fun d l => rfl,
    fun d l => rfl, fun d s => rfl, ?_⟩
  intro t
  cases t <;> simp

/-- C5: optional-field omission.  Every schema-level optional field
(`IApiSpec.unique`, the `doc` of `Feature`/`UnstableFeature`/`Call` and
of every `Type` variant, `Feature.deprecated`) is entirely absent from
the encoded object when unset — never emitted as an explicit null — and
decoding an object in which such a key is absent yields `none` for that
field. -/
theorem c5_optional_omission :
    (∀ s : IApiSpec, s.unique = none →
      "unique" ∉ objKeysOf (encodeIApiSpec s)) ∧
    (∀ (fields : List (String × Json)) (s : IApiSpec),
      "unique" ∉ fields.map Prod.fst →
      decodeIApiSpec (.obj fields) = .ok s → s.unique = none) ∧
    (∀ f : Feature,
      (f.doc = none → "doc" ∉ objKeysOf (encodeFeature f)) ∧
      (f.deprecated = none → "deprecated" ∉ objKeysOf (encodeFeature f))) ∧
    (∀ (fields : List (String × Json)) (f : Feature),
      decodeFeature (.obj fields) = .ok f →
      ("doc" ∉ fields.map Prod.fst → f.doc = none) ∧
      ("deprecated" ∉ fields.map Prod.fst → f.deprecated = none)) ∧
    (∀ uf : UnstableFeature, uf.doc = none →
      "doc" ∉ objKeysOf (encodeUnstableFeature uf)) ∧
    (∀ (fields : List (String × Json)) (uf : UnstableFeature),
      "doc" ∉ fields.map Prod.fst →
      decodeUnstableFeature (.obj fields) = .ok uf → uf.doc = none) ∧
    (∀ c : Call, c.doc = none → "doc" ∉ objKeysOf (encodeCall c)) ∧
    (∀ (fields : List (String × Json)) (c : Call),
      "doc" ∉ fields.map Prod.fst →
      decodeCall (.obj fields) = .ok c → c.doc = none) ∧
    (∀ t : Ty, t.doc = none → "doc" ∉ objKeysOf (encodeTy t)) ∧
    (∀ (fuel : Nat) (fields : List (String × Json)) (t : Ty),
      "doc" ∉ fields.map Prod.fst →
      decodeTyF fuel (.obj fields) = .ok t → t.doc = none) := by
  refine ⟨?_, ?_, ?_, ?_, ?_, ?_, ?_, ?_, ?_, ?_⟩
  · intro s h
    simp only [encodeIApiSpec, h, encodeOptBool, objKeysOf,
      List.map_append, List.map_cons, List.map_nil, List.append_nil,
      List.nil_append, List.cons_append]
    decide
  · intro fields s habs h
    have h1 := decodeIApiSpec_unique fields s h
    rw [decodeOptField_absent decodeBool habs] at h1
    simp only [Except.ok.injEq] at h1
    exact h1.symm
  · intro f
    obtain ⟨d, sr, dep⟩ := f
    constructor
    · intro h
      replace h : d = none := h
      subst h
      cases dep <;>
        (simp only [encodeFeature, encodeOptStr, encodeOptBool, objKeysOf,
          List.map_append, List.map_cons, List.map_nil, List.append_nil,
          List.nil_append, List.cons_append]
         decide)
    · intro h
      replace h : dep = none := h
      subst h
      cases d <;>
        (simp only [encodeFeature, encodeOptStr, encodeOptBool, objKeysOf,
          List.map_append, List.map_cons, List.map_nil, List.append_nil,
          List.nil_append, List.cons_append]
         decide)
  · intro fields f h
    have h1 := decodeFeature_doc_dep fields f h
    constructor
    · intro habs
      have h2 := h1.1
      rw [decodeOptField_absent decodeString habs] at h2
      simp only [Except.ok.injEq] at h2
      exact h2.symm
    · intro habs
      have h2 := h1.2
      rw [decodeOptField_absent decodeBool habs] at h2
      simp only [Except.ok.injEq] at h2
      exact h2.symm
  · intro uf h
    obtain ⟨d⟩ := uf
    replace h : d = none := h
    subst h
    simp [encodeUnstableFeature, encodeOptStr, objKeysOf]
  · intro fields uf habs h
    have h1 := decodeUnstableFeature_doc fields uf h
    rw [decodeOptField_absent decodeString habs] at h1
    simp only [Except.ok.injEq] at h1
    exact h1.symm
  · intro c h
    obtain ⟨d, cf, ci, co⟩ := c
    replace h : d = none := h
    subst h
    simp only [encodeCall, encodeOptStr, objKeysOf, List.map_append,
      List.map_cons, List.map_nil, List.append_nil, List.nil_append,
      List.cons_append]
    decide
  · intro fields c habs h
    have h1 := decodeCall_doc fields c h
    rw [decodeOptField_absent decodeString habs] at h1
    simp only [Except.ok.injEq] at h1
    exact h1.symm
  · intro t h
    cases t with
    | Null d =>
      replace h : d = none := h
      subst h
      simp [encodeTy, encodeOptStr, objKeysOf]
    | Bool d =>
      replace h : d = none := h
      subst h
      simp [encodeTy, encodeOptStr, objKeysOf]
    | I32 d =>
      replace h : d = none := h
      subst h
      simp [encodeTy, encodeOptStr, objKeysOf]
    | U32 d =>
      replace h : d = none := h
      subst h
      simp [encodeTy, encodeOptStr, objKeysOf]
    | I64 d =>
      replace h : d = none := h
      subst h
      simp [encodeTy, encodeOptStr, objKeysOf]
    | U64 d =>
      replace h : d = none := h
      subst h
      simp [encodeTy, encodeOptStr, objKeysOf]
    | F64 d =>
      replace h : d = none := h
      subst h
      simp [encodeTy, encodeOptStr, objKeysOf]
    | Bytes d =>
      replace h : d = none := h
      subst h
      simp [encodeTy, encodeOptStr, objKeysOf]
    | String d =>
      replace h : d = none := h
      subst h
      simp [encodeTy, encodeOptStr, objKeysOf]
    | Optional d c =>
      replace h : d = none := h
      subst h
      simp [encodeTy, encodeOptStr, objKeysOf]
    | Array d c =>
      replace h : d = none := h
      subst h
      simp [encodeTy, encodeOptStr, objKeysOf]
    | Tuple d l =>
      replace h : d = none := h
      subst h
      simp [encodeTy, encodeOptStr, objKeysOf]
    | Struct d l =>
      replace h : d = none := h
      subst h
      simp [encodeTy, encodeOptStr, objKeysOf]
    | Enum d l =>
      replace h : d = none := h
      subst h
      simp [encodeTy, encodeOptStr, objKeysOf]
    | NamedType d s0 =>
      replace h : d = none := h
      subst h
      simp [encodeTy, encodeOptStr, objKeysOf]
  · intro fuel fields t habs h
    have h1 := decodeTyF_doc fuel fields t h
    rw [decodeOptField_absent decodeString habs] at h1
    simp only [Except.ok.injEq] at h1
    exact h1.symm

/-- Witness for C5 at concrete values: an encoded spec/feature/call/type
with unset optional fields carries no such key, and decoding objects
lacking those keys yields `none`. -/
theorem c5_optional_omission_witness :
    "unique" ∉ objKeysOf (encodeIApiSpec exDoc.inversion_api_spec) ∧
    (extraKeysDoc.inversion_api_spec).unique = none ∧
    ("doc" ∉ objKeysOf (encodeFeature ⟨none, 3, some true⟩)) ∧
    ("deprecated" ∉ objKeysOf (encodeFeature ⟨some "d", 3, none⟩)) ∧
    (Feature.mk none 0 none).doc = none ∧
    (UnstableFeature.mk none).doc = none ∧
    (Call.mk none "f" "i" "o").doc = none ∧
    ("doc" ∉ objKeysOf (encodeTy (.Optional none (.Null (some "x"))))) ∧
    (Ty.Null none).doc = none := by
  refine ⟨?_, ?_, ?_, ?_, ?_, ?_, ?_, ?_, ?_⟩
  · exact c5_optional_omission.1 exDoc.inversion_api_spec (by rfl)
  · exact c5_optional_omission.2.1
      [("id", Json.str "x"), ("title", Json.str "t"),
       ("revision", Json.num 1), ("errorType", Json.str "e"),
       ("features", Json.obj [("f", Json.obj
          [("stablizedRevision", Json.num 0)])]),
       ("unstableFeatures", Json.obj []),
       ("types", Json.obj [("s", Json.obj [("type", Json.str "struct"),
          ("content", Json.obj [("a", Json.obj [("index", Json.num 0),
            ("content", Json.obj [("type", Json.str "null")])])])])]),
       ("callsOut", Json.obj []),
       ("callsIn", Json.obj [("c", Json.obj [("feature", Json.str "f"),
          ("input", Json.str "s"), ("output", Json.str "s")])])]
      extraKeysDoc.inversion_api_spec (by decide) (by rfl)
  · exact (c5_optional_omission.2.2.1 ⟨none, 3, some true⟩).1 rfl
  · exact (c5_optional_omission.2.2.1 ⟨some "d", 3, none⟩).2 rfl
  · exact (c5_optional_omission.2.2.2.1
      [("stablizedRevision", Json.num 0)] ⟨none, 0, none⟩ (by rfl)).1
      (by decide)
  · exact c5_optional_omission.2.2.2.2.2.1 [] ⟨none⟩ (by decide) (by rfl)
  · exact c5_optional_omission.2.2.2.2.2.2.2.1
      [("feature", Json.str "f"), ("input", Json.str "i"),
       ("output", Json.str "o")]
      ⟨none, "f", "i", "o"⟩ (by decide) (by rfl)
  · exact c5_optional_omission.2.2.2.2.2.2.2.2.1
      (.Optional none (.Null (some "x"))) rfl
  · exact c5_optional_omission.2.2.2.2.2.2.2.2.2 2
      [("type", Json.str "null")] (.Null none) (by decide) (by rfl)
